import Mathlib

/-! Verification development for the FIAT expansion tabulation engine
(src/FIAT/expansions.py and src/FIAT/point_element.py).

Numeric conventions used throughout: Python floats are modelled as real
numbers.  The recurrences in the `_tabulate` methods are evaluated by the
source over plain floats, sympy symbols, or dual numbers alike; this
polymorphism is modelled by writing each recurrence over an arbitrary
commutative ℝ-algebra `A` (float constants enter through `algebraMap ℝ A`,
abbreviated `rc`; division of an algebra element by a float constant is
multiplication by `rc` of its inverse).  Python 2 division `/` on
non-negative ints is `Nat.div`, and on possibly negative ints it is floor
division, `Int.fdiv`.  A Python list created by `k * [None]` is a
`List (Option A)`; the assignment `results[i] = v` is `List.set i (some v)`;
reading `results[i]` is `og` below, which defaults an unassigned slot to 0
(the correctness lemmas prove that every slot the source reads has already
been assigned, so the default is never seen).  A raised exception is
`Option.none` at the embedded function's return type.  Printing is modelled
by pairing a result with the list of lines written to stdout. -/

set_option linter.unusedSectionVars false

namespace FIATSpec

/-- Reference-cell shapes dispatched on by `get_expansion_set` and
`polynomial_dimension` (reference_element.LINE / TRIANGLE / TETRAHEDRON). -/
inductive Shape
  | line
  | triangle
  | tetrahedron
deriving DecidableEq

/-- Embedding of `polynomial_dimension(ref_el, degree)`, expansions.py
lines 430-440.  Python 2 `/` on ints is floor division, hence `Int.fdiv`;
the `max` arguments are ordered exactly as in the source. -/
def polynomial_dimension : Shape → ℤ → ℤ
  | Shape.line, degree => max 0 (degree + 1)
  | Shape.triangle, degree => max (((degree + 1) * (degree + 2)).fdiv 2) 0
  | Shape.tetrahedron, degree => max 0 (((degree + 1) * (degree + 2) * (degree + 3)).fdiv 6)

/-- Embedding of `LineExpansionSet.get_num_members` (expansions.py line 68). -/
def line_get_num_members (n : ℤ) : ℤ := n + 1

/-- Embedding of `TriangleExpansionSet.get_num_members` (line 114). -/
def tri_get_num_members (n : ℤ) : ℤ := ((n + 1) * (n + 2)).fdiv 2

/-- Embedding of `TetrahedronExpansionSet.get_num_members` (line 244). -/
def tet_get_num_members (n : ℤ) : ℤ := ((n + 1) * (n + 2) * (n + 3)).fdiv 6

/-- Length of the `results` list in `TriangleExpansionSet._tabulate`
(line 143): `(n+1)*(n+2)/2`. -/
def tridim (n : ℕ) : ℕ := (n + 1) * (n + 2) / 2

/-- Length of the `results` list in `TetrahedronExpansionSet._tabulate`
(line 274): `(n+1)*(n+2)*(n+3)/6`. -/
def tetdim (n : ℕ) : ℕ := (n + 1) * (n + 2) * (n + 3) / 6

lemma tri_num_step (s : ℕ) : (s + 1) * (s + 2) / 2 = s * (s + 1) / 2 + (s + 1) := by
  obtain ⟨k, hk⟩ := Nat.even_mul_succ_self s
  have h1 : s * (s + 1) = 2 * k := by rw [hk]; ring
  have h2 : (s + 1) * (s + 2) = 2 * (k + (s + 1)) := by
    calc (s + 1) * (s + 2) = s * (s + 1) + 2 * (s + 1) := by ring
    _ = 2 * k + 2 * (s + 1) := by rw [h1]
    _ = 2 * (k + (s + 1)) := by ring
  rw [h1, h2, Nat.mul_div_cancel_left _ (by norm_num : 0 < 2),
    Nat.mul_div_cancel_left _ (by norm_num : 0 < 2)]

lemma six_dvd_consec (s : ℕ) : ∃ k, s * (s + 1) * (s + 2) = 6 * k := by
  induction s with
  | zero => exact ⟨0, rfl⟩
  | succ s ih =>
    obtain ⟨k, hk⟩ := ih
    obtain ⟨m, hm⟩ := Nat.even_mul_succ_self (s + 1)
    refine ⟨k + m, ?_⟩
    calc (s + 1) * (s + 2) * (s + 3)
        = s * (s + 1) * (s + 2) + 3 * ((s + 1) * (s + 2)) := by ring
      _ = 6 * k + 3 * (m + m) := by rw [hk, hm]
      _ = 6 * (k + m) := by ring

lemma tet_num_step (s : ℕ) :
    (s + 1) * (s + 2) * (s + 3) / 6 = s * (s + 1) * (s + 2) / 6 + (s + 1) * (s + 2) / 2 := by
  obtain ⟨k, hk⟩ := six_dvd_consec s
  obtain ⟨m, hm⟩ := Nat.even_mul_succ_self (s + 1)
  have hm' : (s + 1) * (s + 2) = 2 * m := by rw [hm]; ring
  have h2 : (s + 1) * (s + 2) * (s + 3) = 6 * (k + m) := by
    calc (s + 1) * (s + 2) * (s + 3)
        = s * (s + 1) * (s + 2) + 3 * ((s + 1) * (s + 2)) := by ring
      _ = 6 * k + 3 * (2 * m) := by rw [hk, hm']
      _ = 6 * (k + m) := by ring
  rw [h2, hk, hm', Nat.mul_div_cancel_left _ (by norm_num : 0 < 6),
    Nat.mul_div_cancel_left _ (by norm_num : 0 < 6),
    Nat.mul_div_cancel_left _ (by norm_num : 0 < 2)]

lemma tri_get_num_members_nat (n : ℕ) :
    tri_get_num_members (n : ℤ) = (tridim n : ℤ) := by
  unfold tri_get_num_members tridim
  rw [Int.fdiv_eq_ediv _ (by norm_num)]
  have h : ((n : ℤ) + 1) * ((n : ℤ) + 2) = (((n + 1) * (n + 2) : ℕ) : ℤ) := by push_cast; ring
  rw [h]
  exact_mod_cast (Int.ofNat_ediv ((n + 1) * (n + 2)) 2).symm

lemma tet_get_num_members_nat (n : ℕ) :
    tet_get_num_members (n : ℤ) = (tetdim n : ℤ) := by
  unfold tet_get_num_members tetdim
  rw [Int.fdiv_eq_ediv _ (by norm_num)]
  have h : ((n : ℤ) + 1) * ((n : ℤ) + 2) * ((n : ℤ) + 3)
      = (((n + 1) * (n + 2) * (n + 3) : ℕ) : ℤ) := by push_cast; ring
  rw [h]
  exact_mod_cast (Int.ofNat_ediv ((n + 1) * (n + 2) * (n + 3)) 6).symm

lemma polynomial_dimension_line_nat (n : ℕ) :
    polynomial_dimension Shape.line (n : ℤ) = (n : ℤ) + 1 := by
  show max 0 ((n : ℤ) + 1) = (n : ℤ) + 1
  omega

lemma polynomial_dimension_tri_nat (n : ℕ) :
    polynomial_dimension Shape.triangle (n : ℤ) = (tridim n : ℤ) := by
  have h : polynomial_dimension Shape.triangle (n : ℤ)
      = max (tri_get_num_members (n : ℤ)) 0 := rfl
  rw [h, tri_get_num_members_nat]
  omega

lemma polynomial_dimension_tet_nat (n : ℕ) :
    polynomial_dimension Shape.tetrahedron (n : ℤ) = (tetdim n : ℤ) := by
  have h : polynomial_dimension Shape.tetrahedron (n : ℤ)
      = max 0 (tet_get_num_members (n : ℤ)) := rfl
  rw [h, tet_get_num_members_nat]
  omega

/-- Embedding of `PointElement.tabulate(order, points)` (point_element.py
lines 58-73).  The `assert order == 0` is modelled by returning `none`
(AssertionError) for any other order; on success the returned dict
`{(): np.ones((1, len(points)))}` is modelled as its single key-value
pair, the key being the empty derivative multi-index `[]`. -/
def point_tabulate {α : Type} (order : ℤ) (points : List α) :
    Option (List ℕ × List (List ℝ)) :=
  if order = 0 then some ([], [List.replicate points.length (1 : ℝ)]) else none

/-- C8: `PointElement.tabulate(order, points)` fails (AssertionError) for
every order ≠ 0, and for order = 0 returns the mapping with single key `()`
whose value is a 1 × len(points) array of ones. -/
theorem C8_point_tabulate {α : Type} (order : ℤ) (points : List α) :
    (order ≠ 0 → point_tabulate order points = none) ∧
    (order = 0 → point_tabulate order points
      = some ([], [List.replicate points.length (1 : ℝ)])) := by
  constructor <;> intro h <;> simp [point_tabulate, h]

/-- Witness for C8 at order 2 and order 0 on a concrete point list. -/
theorem C8_point_tabulate_witness :
    point_tabulate (α := ℕ) 2 [7] = none ∧
    point_tabulate (α := ℕ) 0 [7] = some ([], [[(1 : ℝ)]]) := by
  refine ⟨(C8_point_tabulate 2 [7]).1 (by decide), ?_⟩
  have h := (C8_point_tabulate (α := ℕ) 0 [7]).2 rfl
  simpa using h

/-- C3 (code bug): `polynomial_dimension` is supposed to clamp negative
degrees to dimension 0, and its own doc string promises the dimension of
the polynomial space; but for the triangle at degree -3 the quadratic
`(d+1)(d+2)/2` is positive again and the `max` clamp fails: the function
returns 1.  The line (all negatives) and the tetrahedron behave as claimed;
the triangle violates the claim for every degree ≤ -3. -/
theorem C3_negative_degree_clamp_fails :
    polynomial_dimension Shape.triangle (-3) = 1 ∧
    polynomial_dimension Shape.triangle (-4) = 3 ∧
    polynomial_dimension Shape.line (-3) = 0 ∧
    polynomial_dimension Shape.tetrahedron (-4) = 0 := by decide

/-- Float constants entering an algebra-valued computation (a Python float
multiplied into or added to a float/symbol/dual-number value). -/
def rc {A : Type} [CommRing A] [Algebra ℝ A] (r : ℝ) : A := algebraMap ℝ A r

lemma map_rc {A B : Type} [CommRing A] [Algebra ℝ A] [CommRing B] [Algebra ℝ B]
    (φ : A →ₐ[ℝ] B) (r : ℝ) : φ (rc r) = rc r := φ.commutes r

/-- Reading `results[i]`: the slot as an `Option`. -/
def slot {A : Type} (s : List (Option A)) (i : ℕ) : Option A := s.getD i none

/-- Reading `results[i]` as a value (0 for a never-assigned slot; the
correctness lemmas show the source never reads an unassigned slot). -/
def og {A : Type} [Zero A] (s : List (Option A)) (i : ℕ) : A := (slot s i).getD 0

/-- The assignment `results[i] = v`. -/
def st {A : Type} (s : List (Option A)) (i : ℕ) (v : A) : List (Option A) :=
  s.set i (some v)

section SlotLemmas

variable {A : Type} {s : List (Option A)} {i j : ℕ} {v : A}

lemma length_st : (st s i v).length = s.length := List.length_set s i _

lemma slot_st_self (h : i < s.length) : slot (st s i v) i = some v := by
  simp [slot, st, List.getD_eq_getElem?_getD, List.getElem?_set_self, h]

lemma slot_st_ne (h : i ≠ j) : slot (st s i v) j = slot s j := by
  simp [slot, st, List.getD_eq_getElem?_getD, List.getElem?_set_ne h]

lemma slot_of_length_le (h : s.length ≤ i) : slot s i = none := by
  simp [slot, List.getD_eq_getElem?_getD, List.getElem?_eq_none h]

lemma lt_length_of_slot_isSome (h : (slot s i).isSome) : i < s.length := by
  by_contra hc
  rw [slot_of_length_le (by omega)] at h
  simp at h

lemma og_eq_of_slot [Zero A] (h : slot s i = some v) : og s i = v := by
  simp [og, h]

lemma slot_replicate_none (n : ℕ) : slot (List.replicate n (none : Option A)) i = none := by
  rcases Nat.lt_or_ge i n with h | h
  · simp [slot, List.getD_eq_getElem?_getD, List.getElem?_replicate, h]
  · exact slot_of_length_le (by simpa using h)

lemma isSome_slot_st (h : (slot s j).isSome) : (slot (st s i v) j).isSome := by
  rcases eq_or_ne i j with rfl | hne
  · rw [slot_st_self (lt_length_of_slot_isSome h)]; rfl
  · rwa [slot_st_ne hne]

end SlotLemmas

/-- Recurrence coefficients `jrc(a, b, n)` shared verbatim by
`TriangleExpansionSet._tabulate` (lines 134-141) and
`TetrahedronExpansionSet._tabulate` (lines 265-272); all arithmetic is
float arithmetic on ints cast to float. -/
noncomputable def jrc (a b m : ℕ) : ℝ × ℝ × ℝ :=
  ((2 * (m : ℝ) + 1 + a + b) * (2 * (m : ℝ) + 2 + a + b)
      / (2 * ((m : ℝ) + 1) * ((m : ℝ) + 1 + a + b)),
   ((a : ℝ) * a - (b : ℝ) * b) * (2 * (m : ℝ) + 1 + a + b)
      / (2 * ((m : ℝ) + 1) * (2 * (m : ℝ) + a + b) * ((m : ℝ) + 1 + a + b)),
   ((m : ℝ) + a) * ((m : ℝ) + b) * (2 * (m : ℝ) + 2 + a + b)
      / (((m : ℝ) + 1) * ((m : ℝ) + 1 + a + b) * (2 * (m : ℝ) + a + b)))

namespace TriangleExpansionSet

/-- Row position of basis multi-index `(p, q)` in the `results` list
(expansions.py lines 131-132); Python 2 `/` on non-negative ints is
`Nat.div`. -/
def idx (p q : ℕ) : ℕ := (p + q) * (p + q + 1) / 2 + q

/-- Triangular numbers: the position of the first multi-index of total
degree `s`. -/
def T (s : ℕ) : ℕ := s * (s + 1) / 2

lemma T_succ (s : ℕ) : T (s + 1) = T s + (s + 1) := tri_num_step s

lemma T_mono : Monotone T :=
  monotone_nat_of_le_succ fun s => by rw [T_succ]; omega

lemma idx_eq (p q : ℕ) : idx p q = T (p + q) + q := rfl

lemma tridim_eq_T (n : ℕ) : tridim n = T (n + 1) := rfl

lemma idx_lt {p q n : ℕ} (hpq : p + q ≤ n) : idx p q < tridim n := by
  have h1 : idx p q ≤ T (p + q) + (p + q) := by rw [idx_eq]; omega
  have h2 : T (p + q) + (p + q) < T (p + q + 1) := by rw [T_succ]; omega
  have h3 : T (p + q + 1) ≤ T (n + 1) := T_mono (by omega)
  rw [tridim_eq_T]
  omega

lemma idx_inj {p q p' q' : ℕ} (h : idx p q = idx p' q') : p = p' ∧ q = q' := by
  rw [idx_eq, idx_eq] at h
  rcases Nat.lt_trichotomy (p + q) (p' + q') with hlt | heq | hgt
  · exfalso
    have h2 : T (p + q) + (p + q) < T (p + q + 1) := by rw [T_succ]; omega
    have h3 : T (p + q + 1) ≤ T (p' + q') := T_mono (by omega)
    omega
  · rw [heq] at h
    omega
  · exfalso
    have h2 : T (p' + q') + (p' + q') < T (p' + q' + 1) := by rw [T_succ]; omega
    have h3 : T (p' + q' + 1) ≤ T (p + q) := T_mono (by omega)
    omega

lemma idx_surj_all (i : ℕ) : ∃ p q, idx p q = i := by
  induction i with
  | zero => exact ⟨0, 0, rfl⟩
  | succ i ih =>
    obtain ⟨p, q, h⟩ := ih
    cases p with
    | zero =>
      refine ⟨q + 1, 0, ?_⟩
      rw [idx_eq] at h ⊢
      have h1 : q + 1 + 0 = q + 1 := by omega
      rw [h1, T_succ]
      simp only [Nat.zero_add] at h
      omega
    | succ p =>
      refine ⟨p, q + 1, ?_⟩
      rw [idx_eq] at h ⊢
      have h1 : p + (q + 1) = p + 1 + q := by omega
      rw [h1]
      omega

lemma idx_surj {i n : ℕ} (h : i < tridim n) : ∃ p q, p + q ≤ n ∧ idx p q = i := by
  obtain ⟨p, q, hpq⟩ := idx_surj_all i
  refine ⟨p, q, ?_, hpq⟩
  by_contra hc
  push_neg at hc
  have h1 : T (n + 1) ≤ T (p + q) := T_mono (by omega)
  have h2 : T (p + q) ≤ idx p q := by rw [idx_eq]; omega
  rw [tridim_eq_T] at h
  omega

/-- The six concrete enumeration positions the spec fixes at degree 2. -/
theorem idx_values_n2 :
    idx 0 0 = 0 ∧ idx 1 0 = 1 ∧ idx 0 1 = 2 ∧ idx 2 0 = 3 ∧ idx 1 1 = 4 ∧ idx 0 2 = 5 := by
  decide

variable {A : Type} [CommRing A] [Algebra ℝ A]

/-- Embedded `results[0] = 1.0 + pts[0] - pts[0] + pts[1] - pts[1]`
(lines 145-147), on the original (unmapped) point coordinates; the
subtract-and-add-back is a numpy broadcasting idiom. -/
def B0 (pt : A × A) : A := 1 + pt.1 - pt.1 + pt.2 - pt.2

/-- First reference coordinate from `ref_pts = A · pts + b` (lines 126-129). -/
def refX (Am : Fin 2 → Fin 2 → ℝ) (bv : Fin 2 → ℝ) (pt : A × A) : A :=
  rc (Am 0 0) * pt.1 + rc (Am 0 1) * pt.2 + rc (bv 0)

/-- Second reference coordinate from `ref_pts = A · pts + b`. -/
def refY (Am : Fin 2 → Fin 2 → ℝ) (bv : Fin 2 → ℝ) (pt : A × A) : A :=
  rc (Am 1 0) * pt.1 + rc (Am 1 1) * pt.2 + rc (bv 1)

/-- Blending factor `f1 = (1.0 + 2*x + y)/2.0` (line 155). -/
noncomputable def F1 (Am : Fin 2 → Fin 2 → ℝ) (bv : Fin 2 → ℝ) (pt : A × A) : A :=
  rc (1 / 2) * (1 + 2 * refX Am bv pt + refY Am bv pt)

/-- Blending factor `f2 = (1.0 - y)/2.0` (line 156). -/
noncomputable def F2 (Am : Fin 2 → Fin 2 → ℝ) (bv : Fin 2 → ℝ) (pt : A × A) : A :=
  rc (1 / 2) * (1 - refY Am bv pt)

/-- Blending factor `f3 = f2**2` (line 157). -/
noncomputable def F3 (Am : Fin 2 → Fin 2 → ℝ) (bv : Fin 2 → ℝ) (pt : A × A) : A :=
  F2 Am bv pt ^ 2

/-- The `results` list right after its creation and the slot-0 assignment
(lines 143-147). -/
def phase1 (n : ℕ) (b0 : A) : List (Option A) :=
  st (List.replicate (tridim n) (none : Option A)) 0 b0

/-- One step of the `q = 0` recurrence loop (lines 161-165). -/
noncomputable def pstep (f1 f3 : A) (s : List (Option A)) (p : ℕ) : List (Option A) :=
  st s (idx (p + 1) 0)
    (rc ((2 * (p : ℝ) + 1) / (1 + (p : ℝ))) * f1 * og s (idx p 0)
      - rc ((p : ℝ) / (1 + (p : ℝ))) * f3 * og s (idx (p - 1) 0))

/-- One step of the `q = 1` seeding loop (lines 167-169). -/
noncomputable def q1step (y : A) (s : List (Option A)) (p : ℕ) : List (Option A) :=
  st s (idx p 1)
    (rc (1 / 2) * (rc (1 + 2 * (p : ℝ)) + rc (3 + 2 * (p : ℝ)) * y) * og s (idx p 0))

/-- One step of the general `q` recurrence (lines 171-176), for fixed `p`. -/
noncomputable def qstep (y : A) (p : ℕ) (s : List (Option A)) (q : ℕ) : List (Option A) :=
  st s (idx p (q + 1))
    ((rc (jrc (2 * p + 1) 0 q).1 * y + rc (jrc (2 * p + 1) 0 q).2.1) * og s (idx p q)
      - rc (jrc (2 * p + 1) 0 q).2.2 * og s (idx p (q - 1)))

/-- One step of the final normalization loop (lines 178-180), for fixed `p`. -/
noncomputable def nstep (p : ℕ) (s : List (Option A)) (q : ℕ) : List (Option A) :=
  st s (idx p q)
    (og s (idx p q) * rc (Real.sqrt (((p : ℝ) + 1 / 2) * ((p : ℝ) + (q : ℝ) + 1))))

/-- Embedding of `TriangleExpansionSet._tabulate(n, pts)` at a single point
(expansions.py lines 123-183).  `Am`, `bv` are the affine map computed at
construction; the point has coordinates in an arbitrary commutative
ℝ-algebra, exactly as the source code runs unchanged over floats, sympy
symbols and dual numbers.  For `n = 0` the source returns right after
assigning slot 0, skipping the normalization loop. -/
noncomputable def _tabulate (Am : Fin 2 → Fin 2 → ℝ) (bv : Fin 2 → ℝ) (n : ℕ)
    (pt : A × A) : List (Option A) :=
  if n = 0 then phase1 n (B0 pt) else
  let y := refY Am bv pt
  let f1 := F1 Am bv pt
  let f3 := F3 Am bv pt
  let s1 := st (phase1 n (B0 pt)) (idx 1 0) f1
  let s2 := (List.range' 1 (n - 1)).foldl (pstep f1 f3) s1
  let s3 := (List.range n).foldl (q1step y) s2
  let s4 := (List.range (n - 1)).foldl
    (fun s p => (List.range' 1 (n - p - 1)).foldl (qstep y p) s) s3
  (List.range (n + 1)).foldl (fun s p => (List.range (n - p + 1)).foldl (nstep p) s) s4

/-- Embedding of `TriangleExpansionSet.tabulate(n, pts)` (lines 117-121):
the empty point list yields the empty array; otherwise the result is the
`results` list of `_tabulate`, each entry being an array over the points
(row = basis function, column = point). -/
noncomputable def tabulate (Am : Fin 2 → Fin 2 → ℝ) (bv : Fin 2 → ℝ) (n : ℕ)
    (pts : List (A × A)) : List (List (Option A)) :=
  if pts.isEmpty then []
  else (List.range (tridim n)).map fun i => pts.map fun pt => slot (_tabulate Am bv n pt) i

/-- Reference recurrence, `q = 0` column (code lines 159-165; spec §4.4
step 2), before normalization. -/
noncomputable def psiP (f1 f3 b0 : A) : ℕ → A
  | 0 => b0
  | 1 => f1
  | p + 2 =>
    rc ((2 * ((p : ℝ) + 1) + 1) / (1 + ((p : ℝ) + 1))) * f1 * psiP f1 f3 b0 (p + 1)
      - rc (((p : ℝ) + 1) / (1 + ((p : ℝ) + 1))) * f3 * psiP f1 f3 b0 p

/-- Reference recurrence value of basis function `(p, q)` (code lines
159-176; spec §4.4 steps 1-4), before normalization. -/
noncomputable def psi (y f1 f3 b0 : A) (p : ℕ) : ℕ → A
  | 0 => psiP f1 f3 b0 p
  | 1 => rc (1 / 2) * (rc (1 + 2 * (p : ℝ)) + rc (3 + 2 * (p : ℝ)) * y) * psiP f1 f3 b0 p
  | q + 2 =>
    (rc (jrc (2 * p + 1) 0 (q + 1)).1 * y + rc (jrc (2 * p + 1) 0 (q + 1)).2.1)
        * psi y f1 f3 b0 p (q + 1)
      - rc (jrc (2 * p + 1) 0 (q + 1)).2.2 * psi y f1 f3 b0 p q

/-- Normalized reference value: `psi` times `sqrt((p+0.5)*(p+q+1.0))`
(code lines 178-180; spec §4.4 step 5). -/
noncomputable def nval (y f1 f3 b0 : A) (p q : ℕ) : A :=
  psi y f1 f3 b0 p q * rc (Real.sqrt (((p : ℝ) + 1 / 2) * ((p : ℝ) + (q : ℝ) + 1)))

lemma tridim_pos (n : ℕ) : 0 < tridim n := idx_lt (p := 0) (q := 0) (by omega)

/-- Invariant carried through the sweep phases: the state has the right
length and every slot recorded in `D` is in range and holds its recorded
value. -/
def Inv (n : ℕ) (v : ℕ → ℕ → A) (D : ℕ → ℕ → Prop) (s : List (Option A)) : Prop :=
  s.length = tridim n ∧ ∀ p q, D p q → p + q ≤ n ∧ slot s (idx p q) = some (v p q)

lemma inv_mono {n : ℕ} {v : ℕ → ℕ → A} {D D' : ℕ → ℕ → Prop} {s : List (Option A)}
    (h : Inv n v D s) (hD : ∀ p q, D' p q → D p q) : Inv n v D' s :=
  ⟨h.1, fun p q hpq => h.2 p q (hD p q hpq)⟩

lemma inv_og {n : ℕ} {v : ℕ → ℕ → A} {D : ℕ → ℕ → Prop} {s : List (Option A)}
    (h : Inv n v D s) (p q : ℕ) (hD : D p q) : og s (idx p q) = v p q :=
  og_eq_of_slot (h.2 p q hD).2

lemma inv_set {n : ℕ} {v : ℕ → ℕ → A} {D : ℕ → ℕ → Prop} {s : List (Option A)}
    {p q : ℕ} {w : A} (h : Inv n v D s) (hpq : p + q ≤ n) (hw : w = v p q) :
    Inv n v (fun a b => D a b ∨ (a = p ∧ b = q)) (st s (idx p q) w) := by
  have hin : idx p q < s.length := by rw [h.1]; exact idx_lt hpq
  refine ⟨by rw [length_st, h.1], ?_⟩
  rintro a b (hD | ⟨rfl, rfl⟩)
  · refine ⟨(h.2 a b hD).1, ?_⟩
    rcases eq_or_ne (idx p q) (idx a b) with he | hne
    · obtain ⟨rfl, rfl⟩ := idx_inj he
      rw [slot_st_self hin, hw]
    · rw [slot_st_ne hne]
      exact (h.2 a b hD).2
  · exact ⟨hpq, by rw [slot_st_self hin, hw]⟩

lemma inv_phase1 (n : ℕ) (y f1 f3 b0 : A) :
    Inv n (psi y f1 f3 b0) (fun a b => a = 0 ∧ b = 0) (phase1 n b0) := by
  refine ⟨by rw [phase1, length_st, List.length_replicate], ?_⟩
  rintro a b ⟨rfl, rfl⟩
  refine ⟨by omega, ?_⟩
  have h0 : idx 0 0 = 0 := rfl
  rw [h0, phase1, slot_st_self (by simpa using tridim_pos n)]
  rfl

lemma inv_phase2 (n : ℕ) (hn : 1 ≤ n) (y f1 f3 b0 : A) :
    ∀ k, k ≤ n - 1 →
      Inv n (psi y f1 f3 b0) (fun a b => a ≤ k + 1 ∧ b = 0)
        ((List.range' 1 k).foldl (pstep f1 f3) (st (phase1 n b0) (idx 1 0) f1)) := by
  intro k
  induction k with
  | zero =>
    intro _
    have h0 := inv_phase1 n y f1 f3 b0
    have h1 := inv_set h0 (p := 1) (q := 0) (by omega) (w := f1) rfl
    refine inv_mono h1 ?_
    rintro a b ⟨ha, rfl⟩
    have : a = 0 ∨ a = 1 := by omega
    rcases this with rfl | rfl
    · exact Or.inl ⟨rfl, rfl⟩
    · exact Or.inr ⟨rfl, rfl⟩
  | succ k ih =>
    intro hk
    have hI := ih (by omega)
    have hconcat : List.range' 1 (k + 1) = List.range' 1 k ++ [k + 1] := by
      rw [List.range'_concat]
      simp
      omega
    rw [hconcat, List.foldl_append, List.foldl_cons, List.foldl_nil]
    set s := (List.range' 1 k).foldl (pstep f1 f3) (st (phase1 n b0) (idx 1 0) f1) with hs
    have hog1 : og s (idx (k + 1) 0) = psi y f1 f3 b0 (k + 1) 0 :=
      inv_og hI (k + 1) 0 ⟨by omega, rfl⟩
    have hog0 : og s (idx k 0) = psi y f1 f3 b0 k 0 := inv_og hI k 0 ⟨by omega, rfl⟩
    have hstep : pstep f1 f3 s (k + 1)
        = st s (idx (k + 2) 0)
            (rc ((2 * ((k : ℝ) + 1) + 1) / (1 + ((k : ℝ) + 1))) * f1 * og s (idx (k + 1) 0)
              - rc (((k : ℝ) + 1) / (1 + ((k : ℝ) + 1))) * f3 * og s (idx k 0)) := by
      rw [pstep]
      norm_num
    rw [hstep]
    have hval : rc ((2 * ((k : ℝ) + 1) + 1) / (1 + ((k : ℝ) + 1))) * f1 * og s (idx (k + 1) 0)
          - rc (((k : ℝ) + 1) / (1 + ((k : ℝ) + 1))) * f3 * og s (idx k 0)
        = psi y f1 f3 b0 (k + 2) 0 := by
      rw [hog1, hog0]
      show _ = psiP f1 f3 b0 (k + 2)
      rw [psiP]
      rfl
    have h2 := inv_set hI (p := k + 2) (q := 0) (by omega) hval
    refine inv_mono h2 ?_
    rintro a b ⟨ha, rfl⟩
    rcases Nat.lt_or_ge a (k + 2) with h | h
    · exact Or.inl ⟨by omega, rfl⟩
    · exact Or.inr ⟨by omega, rfl⟩

lemma inv_phase3 (n : ℕ) (y f1 f3 b0 : A) (s0 : List (Option A))
    (h0 : Inv n (psi y f1 f3 b0) (fun a b => a ≤ n ∧ b = 0) s0) :
    ∀ k, k ≤ n →
      Inv n (psi y f1 f3 b0) (fun a b => (a ≤ n ∧ b = 0) ∨ (a < k ∧ b = 1))
        ((List.range k).foldl (q1step y) s0) := by
  intro k
  induction k with
  | zero =>
    intro _
    refine inv_mono h0 ?_
    rintro a b (⟨ha, rfl⟩ | ⟨ha, rfl⟩)
    · exact ⟨ha, rfl⟩
    · omega
  | succ k ih =>
    intro hk
    have hI := ih (by omega)
    rw [List.range_succ, List.foldl_append, List.foldl_cons, List.foldl_nil]
    set s := (List.range k).foldl (q1step y) s0 with hs
    have hog0 : og s (idx k 0) = psi y f1 f3 b0 k 0 :=
      inv_og hI k 0 (Or.inl ⟨by omega, rfl⟩)
    have hval : rc (1 / 2) * (rc (1 + 2 * (k : ℝ)) + rc (3 + 2 * (k : ℝ)) * y) * og s (idx k 0)
        = psi y f1 f3 b0 k 1 := by
      rw [hog0]
      rfl
    have h2 := inv_set hI (p := k) (q := 1) (by omega) hval
    refine inv_mono h2 ?_
    rintro a b (⟨ha, rfl⟩ | ⟨ha, rfl⟩)
    · exact Or.inl (Or.inl ⟨ha, rfl⟩)
    · rcases Nat.lt_or_ge a k with h | h
      · exact Or.inl (Or.inr ⟨h, rfl⟩)
      · exact Or.inr ⟨by omega, rfl⟩

lemma inv_phase4_inner (n : ℕ) (y f1 f3 b0 : A) (p : ℕ) (hp : p + 1 < n)
    (Dst : ℕ → ℕ → Prop) (s : List (Option A))
    (hI : Inv n (psi y f1 f3 b0) Dst s) (hD0 : Dst p 0) (hD1 : Dst p 1) :
    ∀ m, m ≤ n - p - 1 →
      Inv n (psi y f1 f3 b0) (fun a b => Dst a b ∨ (a = p ∧ 2 ≤ b ∧ b ≤ m + 1))
        ((List.range' 1 m).foldl (qstep y p) s) := by
  intro m
  induction m with
  | zero =>
    intro _
    refine inv_mono hI ?_
    rintro a b (h | ⟨rfl, hb, hb'⟩)
    · exact h
    · omega
  | succ m ih =>
    intro hm
    have hIm := ih (by omega)
    have hconcat : List.range' 1 (m + 1) = List.range' 1 m ++ [m + 1] := by
      rw [List.range'_concat]
      simp
      omega
    rw [hconcat, List.foldl_append, List.foldl_cons, List.foldl_nil]
    set s' := (List.range' 1 m).foldl (qstep y p) s with hs'
    have hog1 : og s' (idx p (m + 1)) = psi y f1 f3 b0 p (m + 1) := by
      apply inv_og hIm
      rcases Nat.lt_or_ge m 1 with h | h
      · have hm0 : m = 0 := by omega
        subst hm0
        exact Or.inl hD1
      · exact Or.inr ⟨rfl, by omega, by omega⟩
    have hog0 : og s' (idx p m) = psi y f1 f3 b0 p m := by
      apply inv_og hIm
      rcases Nat.lt_or_ge m 1 with h | h
      · have hm0 : m = 0 := by omega
        subst hm0
        exact Or.inl hD0
      · rcases Nat.lt_or_ge m 2 with h2 | h2
        · have hm1 : m = 1 := by omega
          subst hm1
          exact Or.inl hD1
        · exact Or.inr ⟨rfl, by omega, by omega⟩
    have hstep : qstep y p s' (m + 1)
        = st s' (idx p (m + 2))
            ((rc (jrc (2 * p + 1) 0 (m + 1)).1 * y + rc (jrc (2 * p + 1) 0 (m + 1)).2.1)
                * og s' (idx p (m + 1))
              - rc (jrc (2 * p + 1) 0 (m + 1)).2.2 * og s' (idx p m)) := by
      rw [qstep]
      norm_num
    rw [hstep]
    have hval : (rc (jrc (2 * p + 1) 0 (m + 1)).1 * y + rc (jrc (2 * p + 1) 0 (m + 1)).2.1)
            * og s' (idx p (m + 1))
          - rc (jrc (2 * p + 1) 0 (m + 1)).2.2 * og s' (idx p m)
        = psi y f1 f3 b0 p (m + 2) := by
      rw [hog1, hog0, psi]
    have h2 := inv_set hIm (p := p) (q := m + 2) (by omega) hval
    refine inv_mono h2 ?_
    rintro a b (hD | ⟨rfl, hb2, hble⟩)
    · exact Or.inl (Or.inl hD)
    · rcases Nat.lt_or_ge b (m + 2) with h | h
      · exact Or.inl (Or.inr ⟨rfl, hb2, by omega⟩)
      · exact Or.inr ⟨rfl, by omega⟩

lemma inv_phase4 (n : ℕ) (y f1 f3 b0 : A) (s0 : List (Option A))
    (h0 : Inv n (psi y f1 f3 b0) (fun a b => (a ≤ n ∧ b = 0) ∨ (a < n ∧ b = 1)) s0) :
    ∀ j, j ≤ n - 1 →
      Inv n (psi y f1 f3 b0)
        (fun a b => ((a ≤ n ∧ b = 0) ∨ (a < n ∧ b = 1)) ∨ (a < j ∧ 2 ≤ b ∧ a + b ≤ n))
        ((List.range j).foldl
          (fun s p => (List.range' 1 (n - p - 1)).foldl (qstep y p) s) s0) := by
  intro j
  induction j with
  | zero =>
    intro _
    refine inv_mono h0 ?_
    rintro a b ((h | h) | ⟨ha, _, _⟩)
    · exact Or.inl h
    · exact Or.inr h
    · omega
  | succ j ih =>
    intro hj
    have hIj := ih (by omega)
    rw [List.range_succ, List.foldl_append, List.foldl_cons, List.foldl_nil]
    set s' := (List.range j).foldl
      (fun s p => (List.range' 1 (n - p - 1)).foldl (qstep y p) s) s0 with hs'
    have hD0 : (fun a b => ((a ≤ n ∧ b = 0) ∨ (a < n ∧ b = 1))
        ∨ (a < j ∧ 2 ≤ b ∧ a + b ≤ n)) j 0 := Or.inl (Or.inl ⟨by omega, rfl⟩)
    have hD1 : (fun a b => ((a ≤ n ∧ b = 0) ∨ (a < n ∧ b = 1))
        ∨ (a < j ∧ 2 ≤ b ∧ a + b ≤ n)) j 1 := Or.inl (Or.inr ⟨by omega, rfl⟩)
    have hinner := inv_phase4_inner n y f1 f3 b0 j (by omega) _ s' hIj hD0 hD1
      (n - j - 1) le_rfl
    refine inv_mono hinner ?_
    rintro a b ((h | h) | ⟨ha, hb2, hab⟩)
    · exact Or.inl (Or.inl (Or.inl h))
    · exact Or.inl (Or.inl (Or.inr h))
    · rcases Nat.lt_or_ge a j with h | h
      · exact Or.inl (Or.inr ⟨h, hb2, hab⟩)
      · have ha' : a = j := by omega
        subst ha'
        exact Or.inr ⟨rfl, hb2, by omega⟩

lemma phase5_inner (n : ℕ) (y f1 f3 b0 : A) (j : ℕ) (hj : j ≤ n) (s : List (Option A))
    (hlen : s.length = tridim n)
    (hs : ∀ p q, p + q ≤ n →
      slot s (idx p q)
        = some (if p < j then nval y f1 f3 b0 p q else psi y f1 f3 b0 p q)) :
    ∀ m, m ≤ n - j + 1 →
      ((List.range m).foldl (nstep j) s).length = tridim n ∧
      ∀ p q, p + q ≤ n →
        slot ((List.range m).foldl (nstep j) s) (idx p q)
          = some (if p < j ∨ (p = j ∧ q < m) then nval y f1 f3 b0 p q
                  else psi y f1 f3 b0 p q) := by
  intro m
  induction m with
  | zero =>
    intro _
    simp only [List.range_zero, List.foldl_nil]
    refine ⟨hlen, fun p q hpq => ?_⟩
    rw [hs p q hpq]
    have hiff : (p < j ∨ (p = j ∧ q < 0)) ↔ (p < j) := by omega
    simp only [hiff]
  | succ m ih =>
    intro hm
    obtain ⟨ihlen, ihslot⟩ := ih (by omega)
    rw [List.range_succ, List.foldl_append, List.foldl_cons, List.foldl_nil]
    set s' := (List.range m).foldl (nstep j) s with hs'
    have hjm : j + m ≤ n := by omega
    have hog0 : og s' (idx j m) = psi y f1 f3 b0 j m := by
      rw [og_eq_of_slot (ihslot j m hjm)]
      simp
    refine ⟨by rw [nstep, length_st, ihlen], ?_⟩
    intro p q hpq
    rw [nstep]
    rcases eq_or_ne (idx j m) (idx p q) with he | hne
    · obtain ⟨h1, h2⟩ := idx_inj he
      rw [← h1, ← h2, slot_st_self (by rw [ihlen]; exact idx_lt hjm), hog0]
      have hcond : (j < j ∨ (j = j ∧ m < m + 1)) := Or.inr ⟨rfl, by omega⟩
      rw [if_pos hcond]
      rfl
    · rw [slot_st_ne hne, ihslot p q hpq]
      have hne' : ¬(p = j ∧ q = m) := by
        rintro ⟨rfl, rfl⟩
        exact hne rfl
      have hiff : (p < j ∨ (p = j ∧ q < m)) ↔ (p < j ∨ (p = j ∧ q < m + 1)) := by omega
      simp only [hiff]

lemma phase5_outer (n : ℕ) (y f1 f3 b0 : A) (s4 : List (Option A))
    (hlen : s4.length = tridim n)
    (hs : ∀ p q, p + q ≤ n → slot s4 (idx p q) = some (psi y f1 f3 b0 p q)) :
    ∀ k, k ≤ n + 1 →
      (((List.range k).foldl
          (fun s p => (List.range (n - p + 1)).foldl (nstep p) s) s4).length = tridim n) ∧
      ∀ p q, p + q ≤ n →
        slot ((List.range k).foldl
            (fun s p => (List.range (n - p + 1)).foldl (nstep p) s) s4) (idx p q)
          = some (if p < k then nval y f1 f3 b0 p q else psi y f1 f3 b0 p q) := by
  intro k
  induction k with
  | zero =>
    intro _
    simp only [List.range_zero, List.foldl_nil]
    refine ⟨hlen, fun p q hpq => ?_⟩
    rw [hs p q hpq]
    simp
  | succ k ih =>
    intro hk
    obtain ⟨ihlen, ihslot⟩ := ih (by omega)
    rw [List.range_succ, List.foldl_append, List.foldl_cons, List.foldl_nil]
    set s' := (List.range k).foldl
      (fun s p => (List.range (n - p + 1)).foldl (nstep p) s) s4 with hs'
    have hinner := phase5_inner n y f1 f3 b0 k (by omega) s' ihlen ihslot
      (n - k + 1) le_rfl
    refine ⟨hinner.1, ?_⟩
    intro p q hpq
    rw [hinner.2 p q hpq]
    have hiff : (p < k ∨ (p = k ∧ q < n - k + 1)) ↔ (p < k + 1) := by omega
    simp only [hiff]

/-- Master value theorem for the triangle sweep with `n ≥ 1`: slot
`idx(p, q)` of the returned `results` list holds the normalized reference
recurrence value. -/
theorem tri_results_spec (Am : Fin 2 → Fin 2 → ℝ) (bv : Fin 2 → ℝ) {n : ℕ} (hn : 1 ≤ n)
    (pt : A × A) {p q : ℕ} (hpq : p + q ≤ n) :
    slot (_tabulate Am bv n pt) (idx p q)
      = some (nval (refY Am bv pt) (F1 Am bv pt) (F3 Am bv pt) (B0 pt) p q) := by
  have hn0 : n ≠ 0 := by omega
  rw [_tabulate, if_neg hn0]
  set y := refY Am bv pt with hy
  set f1 := F1 Am bv pt with hf1
  set f3 := F3 Am bv pt with hf3
  set b0 := B0 pt with hb0
  have h2 := inv_phase2 n hn y f1 f3 b0 (n - 1) le_rfl
  have h2' : Inv n (psi y f1 f3 b0) (fun a b => a ≤ n ∧ b = 0)
      ((List.range' 1 (n - 1)).foldl (pstep f1 f3) (st (phase1 n b0) (idx 1 0) f1)) := by
    refine inv_mono h2 ?_
    rintro a b ⟨ha, rfl⟩
    exact ⟨by omega, rfl⟩
  have h3 := inv_phase3 n y f1 f3 b0 _ h2' n le_rfl
  have h3' : Inv n (psi y f1 f3 b0) (fun a b => (a ≤ n ∧ b = 0) ∨ (a < n ∧ b = 1))
      ((List.range n).foldl (q1step y)
        ((List.range' 1 (n - 1)).foldl (pstep f1 f3) (st (phase1 n b0) (idx 1 0) f1))) := h3
  have h4 := inv_phase4 n y f1 f3 b0 _ h3' (n - 1) le_rfl
  have h4slot : ∀ a b, a + b ≤ n →
      slot ((List.range (n - 1)).foldl
          (fun s p => (List.range' 1 (n - p - 1)).foldl (qstep y p) s)
          ((List.range n).foldl (q1step y)
            ((List.range' 1 (n - 1)).foldl (pstep f1 f3)
              (st (phase1 n b0) (idx 1 0) f1)))) (idx a b)
        = some (psi y f1 f3 b0 a b) := by
    intro a b hab
    refine (h4.2 a b ?_).2
    rcases Nat.lt_or_ge b 1 with hb | hb
    · have hb0' : b = 0 := by omega
      subst hb0'
      exact Or.inl (Or.inl ⟨by omega, rfl⟩)
    · rcases Nat.lt_or_ge b 2 with hb1 | hb1
      · have hb1' : b = 1 := by omega
        subst hb1'
        exact Or.inl (Or.inr ⟨by omega, rfl⟩)
      · exact Or.inr ⟨by omega, hb1, hab⟩
  have h5 := phase5_outer n y f1 f3 b0 _ h4.1 h4slot (n + 1) le_rfl
  rw [h5.2 p q hpq, if_pos (by omega : p < n + 1)]

/-- The triangle `results` list always has length `(n+1)*(n+2)/2`. -/
theorem tri_results_length (Am : Fin 2 → Fin 2 → ℝ) (bv : Fin 2 → ℝ) (n : ℕ) (pt : A × A) :
    (_tabulate Am bv n pt).length = tridim n := by
  rcases Nat.eq_zero_or_pos n with rfl | hn
  · rw [_tabulate, if_pos rfl, phase1, length_st, List.length_replicate]
  · have hn0 : n ≠ 0 := by omega
    rw [_tabulate, if_neg hn0]
    set y := refY Am bv pt
    set f1 := F1 Am bv pt
    set f3 := F3 Am bv pt
    set b0 := B0 pt
    have h2 := inv_phase2 n hn y f1 f3 b0 (n - 1) le_rfl
    have h3 := inv_phase3 n y f1 f3 b0 _
      (inv_mono h2 (by rintro a b ⟨ha, rfl⟩; exact ⟨by omega, rfl⟩)) n le_rfl
    have h4 := inv_phase4 n y f1 f3 b0 _ h3 (n - 1) le_rfl
    have h5 := phase5_outer n y f1 f3 b0 _ h4.1
      (fun a b hab => by
        refine (h4.2 a b ?_).2
        rcases Nat.lt_or_ge b 1 with hb | hb
        · have hb0' : b = 0 := by omega
          subst hb0'
          exact Or.inl (Or.inl ⟨by omega, rfl⟩)
        · rcases Nat.lt_or_ge b 2 with hb1 | hb1
          · have hb1' : b = 1 := by omega
            subst hb1'
            exact Or.inl (Or.inr ⟨by omega, rfl⟩)
          · exact Or.inr ⟨by omega, hb1, hab⟩) (n + 1) le_rfl
    exact h5.1

/-- At `n = 0` the source returns immediately after assigning slot 0;
the single entry is the unnormalized `results[0]` expression. -/
theorem tri_results_zero (Am : Fin 2 → Fin 2 → ℝ) (bv : Fin 2 → ℝ) (pt : A × A) :
    _tabulate Am bv 0 pt = [some (B0 pt)] := rfl

end TriangleExpansionSet

namespace TetrahedronExpansionSet

/-- Row position of basis multi-index `(p, q, r)` in the `results` list
(expansions.py lines 262-263). -/
def idx (p q r : ℕ) : ℕ :=
  (p + q + r) * (p + q + r + 1) * (p + q + r + 2) / 6 + (q + r) * (q + r + 1) / 2 + r

/-- Tetrahedral numbers: the position of the first multi-index of total
degree `s`. -/
def T3 (s : ℕ) : ℕ := s * (s + 1) * (s + 2) / 6

lemma T3_succ (s : ℕ) : T3 (s + 1) = T3 s + TriangleExpansionSet.T (s + 1) :=
  tet_num_step s

lemma T3_mono : Monotone T3 :=
  monotone_nat_of_le_succ fun s => by rw [T3_succ]; omega

lemma idx3_eq (p q r : ℕ) :
    idx p q r = T3 (p + q + r) + TriangleExpansionSet.T (q + r) + r := rfl

lemma tetdim_eq_T3 (n : ℕ) : tetdim n = T3 (n + 1) := rfl

lemma idx3_lt {p q r n : ℕ} (h : p + q + r ≤ n) : idx p q r < tetdim n := by
  have h1 : TriangleExpansionSet.T (q + r) ≤ TriangleExpansionSet.T (p + q + r) :=
    TriangleExpansionSet.T_mono (by omega)
  have h2 : TriangleExpansionSet.T (p + q + r) + (p + q + r) + 1
      = TriangleExpansionSet.T (p + q + r + 1) :=
    (TriangleExpansionSet.T_succ (p + q + r)).symm ▸ rfl
  have h3 : T3 (p + q + r + 1) = T3 (p + q + r) + TriangleExpansionSet.T (p + q + r + 1) :=
    T3_succ (p + q + r)
  have h4 : T3 (p + q + r + 1) ≤ T3 (n + 1) := T3_mono (by omega)
  have h5 : TriangleExpansionSet.T (p + q + r + 1)
      = TriangleExpansionSet.T (p + q + r) + (p + q + r + 1) :=
    TriangleExpansionSet.T_succ (p + q + r)
  rw [idx3_eq, tetdim_eq_T3]
  omega

lemma idx3_surj_all (i : ℕ) : ∃ p q r, idx p q r = i := by
  induction i with
  | zero => exact ⟨0, 0, 0, rfl⟩
  | succ i ih =>
    obtain ⟨p, q, r, h⟩ := ih
    rcases Nat.eq_zero_or_pos q with rfl | hq
    · rcases Nat.eq_zero_or_pos p with rfl | hp
      · -- p = q = 0: next degree, (r+1, 0, 0)
        refine ⟨r + 1, 0, 0, ?_⟩
        rw [idx3_eq] at h ⊢
        have e1 : r + 1 + 0 + 0 = r + 1 := by omega
        have e2 : (0 : ℕ) + 0 = 0 := rfl
        rw [e1, e2, T3_succ]
        have e3 : (0 : ℕ) + 0 + r = r := by omega
        rw [e3] at h
        have e4 : TriangleExpansionSet.T (r + 1)
            = TriangleExpansionSet.T r + (r + 1) := TriangleExpansionSet.T_succ r
        have e5 : TriangleExpansionSet.T 0 = 0 := rfl
        omega
      · -- q = 0, p > 0: (p-1, r+1, 0)
        refine ⟨p - 1, r + 1, 0, ?_⟩
        rw [idx3_eq] at h ⊢
        have e1 : p - 1 + (r + 1) + 0 = p + 0 + r := by omega
        have e2 : r + 1 + 0 = r + 1 := by omega
        rw [e1, e2]
        have e4 : TriangleExpansionSet.T (r + 1)
            = TriangleExpansionSet.T r + (r + 1) := TriangleExpansionSet.T_succ r
        have e3 : (0 : ℕ) + r = r := by omega
        rw [e3] at h
        omega
    · -- q > 0: (p, q-1, r+1)
      refine ⟨p, q - 1, r + 1, ?_⟩
      rw [idx3_eq] at h ⊢
      have e1 : p + (q - 1) + (r + 1) = p + q + r := by omega
      have e2 : q - 1 + (r + 1) = q + r := by omega
      rw [e1, e2]
      omega

lemma idx3_surj {i n : ℕ} (h : i < tetdim n) : ∃ p q r, p + q + r ≤ n ∧ idx p q r = i := by
  obtain ⟨p, q, r, hpqr⟩ := idx3_surj_all i
  refine ⟨p, q, r, ?_, hpqr⟩
  by_contra hc
  push_neg at hc
  have h1 : T3 (n + 1) ≤ T3 (p + q + r) := T3_mono (by omega)
  have h2 : T3 (p + q + r) ≤ idx p q r := by rw [idx3_eq]; omega
  rw [tetdim_eq_T3] at h
  omega

variable {A : Type} [CommRing A] [Algebra ℝ A]

/-- Embedded `results[0]` (lines 275-278), on the original point
coordinates. -/
def B0 (pt : A × A × A) : A :=
  1 + pt.1 - pt.1 + pt.2.1 - pt.2.1 + pt.2.2 - pt.2.2

/-- First reference coordinate from `ref_pts = A · pts + b` (lines 257-260). -/
def refX (Am : Fin 3 → Fin 3 → ℝ) (bv : Fin 3 → ℝ) (pt : A × A × A) : A :=
  rc (Am 0 0) * pt.1 + rc (Am 0 1) * pt.2.1 + rc (Am 0 2) * pt.2.2 + rc (bv 0)

/-- Second reference coordinate. -/
def refY (Am : Fin 3 → Fin 3 → ℝ) (bv : Fin 3 → ℝ) (pt : A × A × A) : A :=
  rc (Am 1 0) * pt.1 + rc (Am 1 1) * pt.2.1 + rc (Am 1 2) * pt.2.2 + rc (bv 1)

/-- Third reference coordinate. -/
def refZ (Am : Fin 3 → Fin 3 → ℝ) (bv : Fin 3 → ℝ) (pt : A × A × A) : A :=
  rc (Am 2 0) * pt.1 + rc (Am 2 1) * pt.2.1 + rc (Am 2 2) * pt.2.2 + rc (bv 2)

/-- `factor1 = 0.5 * (2.0 + 2.0*x + y + z)` (line 287). -/
noncomputable def Fac1 (Am : Fin 3 → Fin 3 → ℝ) (bv : Fin 3 → ℝ) (pt : A × A × A) : A :=
  rc (1 / 2) * (2 + 2 * refX Am bv pt + refY Am bv pt + refZ Am bv pt)

/-- `factor2 = (0.5*(y+z))**2` (line 288). -/
noncomputable def Fac2 (Am : Fin 3 → Fin 3 → ℝ) (bv : Fin 3 → ℝ) (pt : A × A × A) : A :=
  (rc (1 / 2) * (refY Am bv pt + refZ Am bv pt)) ^ 2

/-- `factor3 = 0.5 * (1 + 2.0*y + z)` (line 289). -/
noncomputable def Fac3 (Am : Fin 3 → Fin 3 → ℝ) (bv : Fin 3 → ℝ) (pt : A × A × A) : A :=
  rc (1 / 2) * (1 + 2 * refY Am bv pt + refZ Am bv pt)

/-- `factor4 = 0.5 * (1 - z)` (line 290). -/
noncomputable def Fac4 (Am : Fin 3 → Fin 3 → ℝ) (bv : Fin 3 → ℝ) (pt : A × A × A) : A :=
  rc (1 / 2) * (1 - refZ Am bv pt)

/-- `factor5 = factor4 ** 2` (line 291). -/
noncomputable def Fac5 (Am : Fin 3 → Fin 3 → ℝ) (bv : Fin 3 → ℝ) (pt : A × A × A) : A :=
  Fac4 Am bv pt ^ 2

/-- The `results` list right after creation and the slot-0 assignment
(lines 274-278). -/
def phase1 (n : ℕ) (b0 : A) : List (Option A) :=
  st (List.replicate (tetdim n) (none : Option A)) 0 b0

/-- One step of the `p` recurrence (lines 294-298). -/
noncomputable def pstep (fac1 fac2 : A) (s : List (Option A)) (p : ℕ) : List (Option A) :=
  st s (idx (p + 1) 0 0)
    (rc ((2 * (p : ℝ) + 1) / ((p : ℝ) + 1)) * fac1 * og s (idx p 0 0)
      - rc ((p : ℝ) / ((p : ℝ) + 1)) * fac2 * og s (idx (p - 1) 0 0))

/-- One step of the `q = 1` loop (lines 301-303). -/
noncomputable def q1step (y z : A) (s : List (Option A)) (p : ℕ) : List (Option A) :=
  st s (idx p 1 0)
    (og s (idx p 0 0) * (rc (p : ℝ) * (1 + y) + rc (1 / 2) * (2 + 3 * y + z)))

/-- One step of the general `q` recurrence (lines 305-311), for fixed `p`. -/
noncomputable def qstep (fac3 fac4 fac5 : A) (p : ℕ) (s : List (Option A)) (q : ℕ) :
    List (Option A) :=
  st s (idx p (q + 1) 0)
    ((rc (jrc (2 * p + 1) 0 q).1 * fac3 + rc (jrc (2 * p + 1) 0 q).2.1 * fac4)
        * og s (idx p q 0)
      - rc (jrc (2 * p + 1) 0 q).2.2 * fac5 * og s (idx p (q - 1) 0))

/-- One step of the `r = 1` loop (lines 314-317), for fixed `p`. -/
noncomputable def r1step (z : A) (p : ℕ) (s : List (Option A)) (q : ℕ) : List (Option A) :=
  st s (idx p q 1)
    (og s (idx p q 0) * (rc (1 + (p : ℝ) + (q : ℝ)) + rc (2 + (q : ℝ) + (p : ℝ)) * z))

/-- One step of the general `r` recurrence (lines 320-326), for fixed
`p, q`. -/
noncomputable def rstep (z : A) (p q : ℕ) (s : List (Option A)) (r : ℕ) : List (Option A) :=
  st s (idx p q (r + 1))
    ((rc (jrc (2 * p + 2 * q + 2) 0 r).1 * z + rc (jrc (2 * p + 2 * q + 2) 0 r).2.1)
        * og s (idx p q r)
      - rc (jrc (2 * p + 2 * q + 2) 0 r).2.2 * og s (idx p q (r - 1)))

/-- One step of the final normalization loop (lines 328-332), for fixed
`p, q`. -/
noncomputable def nstep (p q : ℕ) (s : List (Option A)) (r : ℕ) : List (Option A) :=
  st s (idx p q r)
    (og s (idx p q r)
      * rc (Real.sqrt (((p : ℝ) + 1 / 2) * ((p : ℝ) + (q : ℝ) + 1)
          * ((p : ℝ) + (q : ℝ) + (r : ℝ) + 3 / 2))))

/-- Embedding of `TetrahedronExpansionSet._tabulate(n, pts)` at a single
point (expansions.py lines 253-334), the pure value part (its stray
`print` statement is modelled separately by `tabulate_output`).  For
`n = 0` the source returns right after assigning slot 0. -/
noncomputable def _tabulate (Am : Fin 3 → Fin 3 → ℝ) (bv : Fin 3 → ℝ) (n : ℕ)
    (pt : A × A × A) : List (Option A) :=
  if n = 0 then phase1 n (B0 pt) else
  let y := refY Am bv pt
  let z := refZ Am bv pt
  let s1 := st (phase1 n (B0 pt)) (idx 1 0 0) (Fac1 Am bv pt)
  let s2 := (List.range' 1 (n - 1)).foldl (pstep (Fac1 Am bv pt) (Fac2 Am bv pt)) s1
  let s3 := (List.range n).foldl (q1step y z) s2
  let s4 := (List.range (n - 1)).foldl
    (fun s p => (List.range' 1 (n - p - 1)).foldl
      (qstep (Fac3 Am bv pt) (Fac4 Am bv pt) (Fac5 Am bv pt) p) s) s3
  let s5 := (List.range n).foldl
    (fun s p => (List.range (n - p)).foldl (r1step z p) s) s4
  let s6 := (List.range (n - 1)).foldl
    (fun s p => (List.range (n - p - 1)).foldl
      (fun s q => (List.range' 1 (n - p - q - 1)).foldl (rstep z p q) s) s) s5
  (List.range (n + 1)).foldl
    (fun s p => (List.range (n - p + 1)).foldl
      (fun s q => (List.range (n - p - q + 1)).foldl (nstep p q) s) s) s6

/-- Embedding of `TetrahedronExpansionSet.tabulate(n, pts)` (lines 247-251),
the pure value part. -/
noncomputable def tabulate (Am : Fin 3 → Fin 3 → ℝ) (bv : Fin 3 → ℝ) (n : ℕ)
    (pts : List (A × A × A)) : List (List (Option A)) :=
  if pts.isEmpty then []
  else (List.range (tetdim n)).map fun i => pts.map fun pt => slot (_tabulate Am bv n pt) i

/-- Console output of a `TetrahedronExpansionSet.tabulate(n, pts)` call:
the stray debug statement `print 'dasdas'` (expansions.py line 256) runs
whenever `_tabulate` is entered, i.e. whenever the point list is
non-empty. -/
def tabulate_output {α : Type} (n : ℕ) (pts : List α) : List String :=
  if pts.isEmpty then [] else ["dasdas"]

end TetrahedronExpansionSet

namespace LineExpansionSet

/-- Embedding of `LineExpansionSet.tabulate(n, pts)` (expansions.py lines
71-83).  The Jacobi recurrence lives in the FIAT.jacobi module, which is
not among the sources under scrutiny; it is abstracted as the parameter
`jac`, returning the matrix `psitilde_as` over the affinely mapped points.
The empty-input guard (`if len(pts) > 0`, else `[]`), the allocation of
`n+1` rows (`numpy.zeros((n+1, len(pts)))`) and the `sqrt(k+0.5)` row
scaling are the source's own. -/
noncomputable def tabulate (jac : ℕ → List ℝ → List (List ℝ)) (a b : ℝ) (n : ℕ)
    (pts : List ℝ) : List (List ℝ) :=
  if pts.isEmpty then []
  else
    (List.range (n + 1)).map fun k =>
      ((jac n (pts.map fun x => a * x + b)).getD k []).map fun v =>
        v * Real.sqrt ((k : ℝ) + 1 / 2)

/-- Embedding of `LineExpansionSet.tabulate_derivatives(n, pts)` (lines
85-97).  The derivative recurrence `jacobi.eval_jacobi_deriv_batch` is
abstract (`jacd`; `none` models a raised exception).  After the Jacobi
call the source evaluates `len(pts[0])` to shape its result array: on an
empty point list this raises IndexError, modelled by the `pts.head?`
bind — so the call fails on empty input no matter how the Jacobi module
behaves. -/
noncomputable def tabulate_derivatives (jacd : ℕ → List ℝ → Option (List (List ℝ)))
    (a b : ℝ) (n : ℕ) (pts : List ℝ) : Option (List (List ℝ)) :=
  (jacd n (pts.map fun x => a * x + b)).bind fun psit =>
    (pts.head?).map fun _ =>
      (List.range (n + 1)).map fun k =>
        (psit.getD k []).map fun v => v * Real.sqrt ((k : ℝ) + 1 / 2)

lemma line_tabulate_empty (jac : ℕ → List ℝ → List (List ℝ)) (a b : ℝ) (n : ℕ) :
    tabulate jac a b n [] = [] := rfl

lemma line_tabulate_derivatives_empty (jacd : ℕ → List ℝ → Option (List (List ℝ)))
    (a b : ℝ) (n : ℕ) : tabulate_derivatives jacd a b n [] = none := by
  unfold tabulate_derivatives
  cases h : jacd n ([].map fun x => a * x + b) <;> simp [h]

lemma line_tabulate_length (jac : ℕ → List ℝ → List (List ℝ)) (a b : ℝ) (n : ℕ)
    (pts : List ℝ) (h : pts ≠ []) : (tabulate jac a b n pts).length = n + 1 := by
  rw [tabulate, if_neg (by simpa using h)]
  rw [List.length_map, List.length_range]

end LineExpansionSet

section FoldInvariants

variable {α ι : Type}

lemma foldl_preserves (P : α → Prop) (step : α → ι → α)
    (h : ∀ s i, P s → P (step s i)) (l : List ι) (s : α) (hs : P s) :
    P (l.foldl step s) := by
  induction l generalizing s with
  | nil => exact hs
  | cons a l ih => exact ih _ (h s a hs)

lemma foldl_persist (P Q : α → Prop) (step : α → ι → α) (l : List ι)
    (hpres : ∀ s i, P s → P (step s i)) (hQ : ∀ s i, P s → Q s → Q (step s i))
    (s : α) (hsP : P s) (hsQ : Q s) : Q (l.foldl step s) := by
  induction l generalizing s with
  | nil => exact hsQ
  | cons a l ih => exact ih _ (hpres s a hsP) (hQ s a hsP hsQ)

lemma foldl_establish (P Q : α → Prop) (step : α → ι → α) (l : List ι) (i0 : ι)
    (hmem : i0 ∈ l)
    (hpres : ∀ s i, P s → P (step s i))
    (hQpres : ∀ s i, P s → Q s → Q (step s i))
    (hest : ∀ s, P s → Q (step s i0))
    (s : α) (hs : P s) : Q (l.foldl step s) := by
  induction l generalizing s with
  | nil => cases hmem
  | cons a l ih =>
    rw [List.foldl_cons]
    rcases eq_or_ne a i0 with rfl | hne
    · exact foldl_persist P Q step l hpres hQpres _ (hpres s a hs) (hest s hs)
    · have hmem' : i0 ∈ l := by
        rcases List.mem_cons.mp hmem with h | h
        · exact absurd h.symm hne
        · exact h
      exact ih hmem' _ (hpres s a hs)

end FoldInvariants

namespace TriangleExpansionSet

variable {A : Type} [CommRing A] [Algebra ℝ A]

/-- Every slot of the triangle `results` list is assigned when the sweep
returns: no `None` placeholder survives. -/
theorem tri_results_isSome (Am : Fin 2 → Fin 2 → ℝ) (bv : Fin 2 → ℝ) (n : ℕ) (pt : A × A)
    {i : ℕ} (hi : i < tridim n) : (slot (_tabulate Am bv n pt) i).isSome := by
  rcases Nat.eq_zero_or_pos n with rfl | hn
  · have h1 : tridim 0 = 1 := rfl
    have h0 : i = 0 := by omega
    subst h0
    rw [tri_results_zero]
    rfl
  · obtain ⟨p, q, hpq, rfl⟩ := idx_surj hi
    rw [tri_results_spec Am bv hn pt hpq]
    rfl

lemma tri_tabulate_empty (Am : Fin 2 → Fin 2 → ℝ) (bv : Fin 2 → ℝ) (n : ℕ) :
    tabulate (A := A) Am bv n [] = [] := rfl

lemma tri_tabulate_length (Am : Fin 2 → Fin 2 → ℝ) (bv : Fin 2 → ℝ) (n : ℕ)
    (pts : List (A × A)) (h : pts ≠ []) :
    (tabulate Am bv n pts).length = tridim n := by
  rw [tabulate, if_neg (by simpa using h)]
  rw [List.length_map, List.length_range]

lemma tri_tabulate_row (Am : Fin 2 → Fin 2 → ℝ) (bv : Fin 2 → ℝ) (n : ℕ)
    (pts : List (A × A)) (h : pts ≠ []) {i : ℕ} (hi : i < tridim n) :
    (tabulate Am bv n pts).getD i []
      = pts.map fun pt => slot (_tabulate Am bv n pt) i := by
  rw [tabulate, if_neg (by simpa using h), List.getD_eq_getElem?_getD,
    List.getElem?_map, List.getElem?_range hi]
  rfl

end TriangleExpansionSet

namespace TetrahedronExpansionSet

variable {A : Type} [CommRing A] [Algebra ℝ A]

lemma tet_length_nstep (p q : ℕ) (s : List (Option A)) (r : ℕ) :
    (nstep p q s r).length = s.length := length_st

/-- The tetrahedron `results` list always has length `tetdim n`. -/
theorem tet_results_length (Am : Fin 3 → Fin 3 → ℝ) (bv : Fin 3 → ℝ) (n : ℕ)
    (pt : A × A × A) : (_tabulate Am bv n pt).length = tetdim n := by
  have hbase : (phase1 n (B0 pt) : List (Option A)).length = tetdim n := by
    rw [phase1, length_st, List.length_replicate]
  rcases Nat.eq_zero_or_pos n with rfl | hn
  · rw [_tabulate, if_pos rfl]
    exact hbase
  · have hn0 : n ≠ 0 := by omega
    rw [_tabulate, if_neg hn0]
    set P : List (Option A) → Prop := fun s => s.length = tetdim n with hP
    have hst : ∀ (s : List (Option A)) (i : ℕ) (v : A), P s → P (st s i v) := by
      intro s i v h
      show (st s i v).length = tetdim n
      rw [length_st]
      exact h
    apply foldl_preserves P _ (fun s p hs =>
      foldl_preserves P _ (fun s q hs =>
        foldl_preserves P _ (fun s r hs => hst _ _ _ hs) _ s hs) _ s hs)
    apply foldl_preserves P _ (fun s p hs =>
      foldl_preserves P _ (fun s q hs =>
        foldl_preserves P _ (fun s r hs => hst _ _ _ hs) _ s hs) _ s hs)
    apply foldl_preserves P _ (fun s p hs =>
      foldl_preserves P _ (fun s q hs => hst _ _ _ hs) _ s hs)
    apply foldl_preserves P _ (fun s p hs =>
      foldl_preserves P _ (fun s q hs => hst _ _ _ hs) _ s hs)
    apply foldl_preserves P _ (fun s p hs => hst _ _ _ hs)
    apply foldl_preserves P _ (fun s p hs => hst _ _ _ hs)
    exact hst _ _ _ hbase

/-- Every slot of the tetrahedron `results` list is assigned when the sweep
returns: the final normalization triple loop writes every `idx(p,q,r)` with
`p+q+r ≤ n`, and `idx` covers the whole list. -/
theorem tet_results_isSome (Am : Fin 3 → Fin 3 → ℝ) (bv : Fin 3 → ℝ) (n : ℕ)
    (pt : A × A × A) {i : ℕ} (hi : i < tetdim n) :
    (slot (_tabulate Am bv n pt) i).isSome := by
  rcases Nat.eq_zero_or_pos n with rfl | hn
  · have h1 : tetdim 0 = 1 := rfl
    have h0 : i = 0 := by omega
    subst h0
    rw [_tabulate, if_pos rfl, phase1]
    rw [slot_st_self (by rw [List.length_replicate]; omega)]
    rfl
  · obtain ⟨p, q, r, hpqr, rfl⟩ := idx3_surj hi
    have hn0 : n ≠ 0 := by omega
    rw [_tabulate, if_neg hn0]
    set P : List (Option A) → Prop := fun s => s.length = tetdim n with hP
    set Q : List (Option A) → Prop := fun s => (slot s (idx p q r)).isSome with hQ
    have hst : ∀ (s : List (Option A)) (i : ℕ) (v : A), P s → P (st s i v) := by
      intro s i v h
      show (st s i v).length = tetdim n
      rw [length_st]
      exact h
    have hQst : ∀ (s : List (Option A)) (i : ℕ) (v : A), Q s → Q (st s i v) := by
      intro s i v h
      exact isSome_slot_st h
    -- the state entering the normalization loop has the right length
    have hs6 : P ((List.range (n - 1)).foldl
        (fun s p => (List.range (n - p - 1)).foldl
          (fun s q => (List.range' 1 (n - p - q - 1)).foldl
            (rstep (refZ Am bv pt) p q) s) s)
        ((List.range n).foldl
          (fun s p => (List.range (n - p)).foldl (r1step (refZ Am bv pt) p) s)
          ((List.range (n - 1)).foldl
            (fun s p => (List.range' 1 (n - p - 1)).foldl
              (qstep (Fac3 Am bv pt) (Fac4 Am bv pt) (Fac5 Am bv pt) p) s)
            ((List.range n).foldl (q1step (refY Am bv pt) (refZ Am bv pt))
              ((List.range' 1 (n - 1)).foldl (pstep (Fac1 Am bv pt) (Fac2 Am bv pt))
                (st (phase1 n (B0 pt)) (idx 1 0 0) (Fac1 Am bv pt))))))) := by
      apply foldl_preserves P _ (fun s p hs =>
        foldl_preserves P _ (fun s q hs =>
          foldl_preserves P _ (fun s r hs => hst _ _ _ hs) _ s hs) _ s hs)
      apply foldl_preserves P _ (fun s p hs =>
        foldl_preserves P _ (fun s q hs => hst _ _ _ hs) _ s hs)
      apply foldl_preserves P _ (fun s p hs =>
        foldl_preserves P _ (fun s q hs => hst _ _ _ hs) _ s hs)
      apply foldl_preserves P _ (fun s p hs => hst _ _ _ hs)
      apply foldl_preserves P _ (fun s p hs => hst _ _ _ hs)
      apply hst
      show (phase1 n (B0 pt) : List (Option A)).length = tetdim n
      rw [phase1, length_st, List.length_replicate]
    -- the innermost normalization fold establishes Q at its own (p, q)
    have hinner : ∀ s : List (Option A), P s →
        Q ((List.range (n - p - q + 1)).foldl (nstep p q) s) := by
      intro s hs
      apply foldl_establish P Q (nstep p q) _ r (by
        rw [List.mem_range]
        omega) (fun s i hs => hst _ _ _ hs) (fun s i hs hq => hQst _ _ _ hq)
        (fun s hs => ?_) s hs
      show (slot (nstep p q s r) (idx p q r)).isSome = true
      have h2 : s.length = tetdim n := hs
      rw [nstep, slot_st_self (by rw [h2]; exact idx3_lt hpqr)]
      rfl
    -- the middle fold establishes Q at its own p
    have hmid : ∀ s : List (Option A), P s →
        Q ((List.range (n - p + 1)).foldl
          (fun s q => (List.range (n - p - q + 1)).foldl (nstep p q) s) s) := by
      intro s hs
      apply foldl_establish P Q _ _ q (by rw [List.mem_range]; omega)
        (fun s i hs => foldl_preserves P _ (fun s r hs => hst _ _ _ hs) _ s hs)
        (fun s i hs hq =>
          foldl_persist P Q _ _ (fun s r hs => hst _ _ _ hs)
            (fun s r hs hq => hQst _ _ _ hq) s hs hq)
        (fun s hs => hinner s hs) s hs
    -- the outer fold establishes Q at p
    apply foldl_establish P Q _ _ p (by rw [List.mem_range]; omega)
      (fun s i hs =>
        foldl_preserves P _ (fun s q hs =>
          foldl_preserves P _ (fun s r hs => hst _ _ _ hs) _ s hs) _ s hs)
      (fun s i hs hq =>
        foldl_persist P Q _ _
          (fun s q hs => foldl_preserves P _ (fun s r hs => hst _ _ _ hs) _ s hs)
          (fun s q hs hq =>
            foldl_persist P Q _ _ (fun s r hs => hst _ _ _ hs)
              (fun s r hs hq => hQst _ _ _ hq) s hs hq) s hs hq)
      (fun s hs => hmid s hs) _ hs6

lemma tet_tabulate_empty (Am : Fin 3 → Fin 3 → ℝ) (bv : Fin 3 → ℝ) (n : ℕ) :
    tabulate (A := A) Am bv n [] = [] := rfl

lemma tet_tabulate_length (Am : Fin 3 → Fin 3 → ℝ) (bv : Fin 3 → ℝ) (n : ℕ)
    (pts : List (A × A × A)) (h : pts ≠ []) :
    (tabulate Am bv n pts).length = tetdim n := by
  rw [tabulate, if_neg (by simpa using h)]
  rw [List.length_map, List.length_range]

lemma tet_tabulate_row (Am : Fin 3 → Fin 3 → ℝ) (bv : Fin 3 → ℝ) (n : ℕ)
    (pts : List (A × A × A)) (h : pts ≠ []) {i : ℕ} (hi : i < tetdim n) :
    (tabulate Am bv n pts).getD i []
      = pts.map fun pt => slot (_tabulate Am bv n pt) i := by
  rw [tabulate, if_neg (by simpa using h), List.getD_eq_getElem?_getD,
    List.getElem?_map, List.getElem?_range hi]
  rfl

end TetrahedronExpansionSet

section MapLemmas

variable {A B : Type} [CommRing A] [Algebra ℝ A] [CommRing B] [Algebra ℝ B]

lemma map_og (φ : A →ₐ[ℝ] B) (s : List (Option A)) (i : ℕ) :
    og (s.map (Option.map φ)) i = φ (og s i) := by
  unfold og slot
  rw [List.getD_eq_getElem?_getD, List.getD_eq_getElem?_getD, List.getElem?_map]
  cases h : s[i]? with
  | none => simp
  | some o => cases o <;> simp

lemma map_st (φ : A →ₐ[ℝ] B) (s : List (Option A)) (i : ℕ) (v : A) :
    (st s i v).map (Option.map φ) = st (s.map (Option.map φ)) i (φ v) := by
  unfold st
  rw [List.map_set]
  rfl

end MapLemmas

namespace TriangleExpansionSet

variable {A B : Type} [CommRing A] [Algebra ℝ A] [CommRing B] [Algebra ℝ B]

lemma map_B0 (φ : A →ₐ[ℝ] B) (pt : A × A) : B0 (φ pt.1, φ pt.2) = φ (B0 pt) := by
  simp [B0]

lemma map_refX (φ : A →ₐ[ℝ] B) (Am : Fin 2 → Fin 2 → ℝ) (bv : Fin 2 → ℝ) (pt : A × A) :
    refX Am bv (φ pt.1, φ pt.2) = φ (refX Am bv pt) := by
  simp [refX, map_rc]

lemma map_refY (φ : A →ₐ[ℝ] B) (Am : Fin 2 → Fin 2 → ℝ) (bv : Fin 2 → ℝ) (pt : A × A) :
    refY Am bv (φ pt.1, φ pt.2) = φ (refY Am bv pt) := by
  simp [refY, map_rc]

lemma map_F1 (φ : A →ₐ[ℝ] B) (Am : Fin 2 → Fin 2 → ℝ) (bv : Fin 2 → ℝ) (pt : A × A) :
    F1 Am bv (φ pt.1, φ pt.2) = φ (F1 Am bv pt) := by
  simp [F1, map_rc, map_refX, map_refY, map_ofNat]

lemma map_F3 (φ : A →ₐ[ℝ] B) (Am : Fin 2 → Fin 2 → ℝ) (bv : Fin 2 → ℝ) (pt : A × A) :
    F3 Am bv (φ pt.1, φ pt.2) = φ (F3 Am bv pt) := by
  simp [F3, F2, map_rc, map_refY]

lemma map_phase1 (φ : A →ₐ[ℝ] B) (n : ℕ) (b0 : A) :
    (phase1 n b0).map (Option.map φ) = phase1 n (φ b0) := by
  unfold phase1
  rw [map_st]
  simp

lemma map_pstep (φ : A →ₐ[ℝ] B) (f1 f3 : A) (s : List (Option A)) (p : ℕ) :
    (pstep f1 f3 s p).map (Option.map φ)
      = pstep (φ f1) (φ f3) (s.map (Option.map φ)) p := by
  unfold pstep
  rw [map_st]
  simp [map_og, map_rc]

lemma map_q1step (φ : A →ₐ[ℝ] B) (y : A) (s : List (Option A)) (p : ℕ) :
    (q1step y s p).map (Option.map φ) = q1step (φ y) (s.map (Option.map φ)) p := by
  unfold q1step
  rw [map_st]
  simp [map_og, map_rc]

lemma map_qstep (φ : A →ₐ[ℝ] B) (y : A) (p : ℕ) (s : List (Option A)) (q : ℕ) :
    (qstep y p s q).map (Option.map φ) = qstep (φ y) p (s.map (Option.map φ)) q := by
  unfold qstep
  rw [map_st]
  simp [map_og, map_rc]

lemma map_nstep (φ : A →ₐ[ℝ] B) (p : ℕ) (s : List (Option A)) (q : ℕ) :
    (nstep p s q).map (Option.map φ) = nstep p (s.map (Option.map φ)) q := by
  unfold nstep
  rw [map_st]
  simp [map_og, map_rc]

/-- The sweep commutes with every ℝ-algebra homomorphism: this is the
formal counterpart of the source's numeric-type agnosticism (the same
code path runs over floats, sympy symbols and dual numbers). -/
theorem map_results (φ : A →ₐ[ℝ] B) (Am : Fin 2 → Fin 2 → ℝ) (bv : Fin 2 → ℝ)
    (n : ℕ) (pt : A × A) :
    _tabulate Am bv n (φ pt.1, φ pt.2) = (_tabulate Am bv n pt).map (Option.map φ) := by
  rcases Nat.eq_zero_or_pos n with rfl | hn
  · rw [_tabulate, _tabulate, if_pos rfl, if_pos rfl, map_phase1, map_B0]
  · have hn0 : n ≠ 0 := by omega
    simp only [_tabulate]
    rw [if_neg hn0, if_neg hn0]
    rw [map_B0, map_refY, map_F1, map_F3]
    have h1 : st (phase1 n (φ (B0 pt))) (idx 1 0) (φ (F1 Am bv pt))
        = (st (phase1 n (B0 pt)) (idx 1 0) (F1 Am bv pt)).map (Option.map φ) := by
      rw [map_st, map_phase1]
    rw [h1]
    rw [List.foldl_hom (·.map (Option.map φ)) (pstep (F1 Am bv pt) (F3 Am bv pt))
      (pstep (φ (F1 Am bv pt)) (φ (F3 Am bv pt))) (List.range' 1 (n - 1)) _
      (fun x y => (map_pstep φ _ _ x y).symm)]
    rw [List.foldl_hom (·.map (Option.map φ)) (q1step (refY Am bv pt))
      (q1step (φ (refY Am bv pt))) (List.range n) _
      (fun x y => (map_q1step φ _ x y).symm)]
    rw [List.foldl_hom (·.map (Option.map φ))
      (fun s p => (List.range' 1 (n - p - 1)).foldl (qstep (refY Am bv pt) p) s)
      (fun s p => (List.range' 1 (n - p - 1)).foldl (qstep (φ (refY Am bv pt)) p) s)
      (List.range (n - 1)) _
      (fun x y => (List.foldl_hom (·.map (Option.map φ)) (qstep (refY Am bv pt) y)
        (qstep (φ (refY Am bv pt)) y) (List.range' 1 (n - y - 1)) x
        (fun u v => (map_qstep φ _ y u v).symm)).symm.symm)]
    rw [List.foldl_hom (·.map (Option.map φ))
      (fun s p => (List.range (n - p + 1)).foldl (nstep p) s)
      (fun s p => (List.range (n - p + 1)).foldl (nstep p) s)
      (List.range (n + 1)) _
      (fun x y => List.foldl_hom (·.map (Option.map φ)) (nstep y) (nstep y)
        (List.range (n - y + 1)) x (fun u v => (map_nstep φ y u v).symm))]

end TriangleExpansionSet

namespace TetrahedronExpansionSet

variable {A B : Type} [CommRing A] [Algebra ℝ A] [CommRing B] [Algebra ℝ B]

lemma map_B0_tet (φ : A →ₐ[ℝ] B) (pt : A × A × A) :
    B0 (φ pt.1, φ pt.2.1, φ pt.2.2) = φ (B0 pt) := by
  simp [B0]

lemma map_refX_tet (φ : A →ₐ[ℝ] B) (Am : Fin 3 → Fin 3 → ℝ) (bv : Fin 3 → ℝ)
    (pt : A × A × A) : refX Am bv (φ pt.1, φ pt.2.1, φ pt.2.2) = φ (refX Am bv pt) := by
  simp [refX, map_rc]

lemma map_refY_tet (φ : A →ₐ[ℝ] B) (Am : Fin 3 → Fin 3 → ℝ) (bv : Fin 3 → ℝ)
    (pt : A × A × A) : refY Am bv (φ pt.1, φ pt.2.1, φ pt.2.2) = φ (refY Am bv pt) := by
  simp [refY, map_rc]

lemma map_refZ_tet (φ : A →ₐ[ℝ] B) (Am : Fin 3 → Fin 3 → ℝ) (bv : Fin 3 → ℝ)
    (pt : A × A × A) : refZ Am bv (φ pt.1, φ pt.2.1, φ pt.2.2) = φ (refZ Am bv pt) := by
  simp [refZ, map_rc]

lemma map_Fac1 (φ : A →ₐ[ℝ] B) (Am : Fin 3 → Fin 3 → ℝ) (bv : Fin 3 → ℝ)
    (pt : A × A × A) : Fac1 Am bv (φ pt.1, φ pt.2.1, φ pt.2.2) = φ (Fac1 Am bv pt) := by
  simp [Fac1, map_rc, map_refX_tet, map_refY_tet, map_refZ_tet, map_ofNat]

lemma map_Fac2 (φ : A →ₐ[ℝ] B) (Am : Fin 3 → Fin 3 → ℝ) (bv : Fin 3 → ℝ)
    (pt : A × A × A) : Fac2 Am bv (φ pt.1, φ pt.2.1, φ pt.2.2) = φ (Fac2 Am bv pt) := by
  simp [Fac2, map_rc, map_refY_tet, map_refZ_tet]

lemma map_Fac3 (φ : A →ₐ[ℝ] B) (Am : Fin 3 → Fin 3 → ℝ) (bv : Fin 3 → ℝ)
    (pt : A × A × A) : Fac3 Am bv (φ pt.1, φ pt.2.1, φ pt.2.2) = φ (Fac3 Am bv pt) := by
  simp [Fac3, map_rc, map_refY_tet, map_refZ_tet, map_ofNat]

lemma map_Fac4 (φ : A →ₐ[ℝ] B) (Am : Fin 3 → Fin 3 → ℝ) (bv : Fin 3 → ℝ)
    (pt : A × A × A) : Fac4 Am bv (φ pt.1, φ pt.2.1, φ pt.2.2) = φ (Fac4 Am bv pt) := by
  simp [Fac4, map_rc, map_refZ_tet]

lemma map_Fac5 (φ : A →ₐ[ℝ] B) (Am : Fin 3 → Fin 3 → ℝ) (bv : Fin 3 → ℝ)
    (pt : A × A × A) : Fac5 Am bv (φ pt.1, φ pt.2.1, φ pt.2.2) = φ (Fac5 Am bv pt) := by
  simp [Fac5, map_Fac4]

lemma map_phase1_tet (φ : A →ₐ[ℝ] B) (n : ℕ) (b0 : A) :
    (phase1 n b0).map (Option.map φ) = phase1 n (φ b0) := by
  unfold phase1
  rw [map_st]
  simp

lemma map_pstep_tet (φ : A →ₐ[ℝ] B) (fac1 fac2 : A) (s : List (Option A)) (p : ℕ) :
    (pstep fac1 fac2 s p).map (Option.map φ)
      = pstep (φ fac1) (φ fac2) (s.map (Option.map φ)) p := by
  unfold pstep
  rw [map_st]
  simp [map_og, map_rc]

lemma map_q1step_tet (φ : A →ₐ[ℝ] B) (y z : A) (s : List (Option A)) (p : ℕ) :
    (q1step y z s p).map (Option.map φ)
      = q1step (φ y) (φ z) (s.map (Option.map φ)) p := by
  unfold q1step
  rw [map_st]
  simp [map_og, map_rc, map_ofNat]

lemma map_qstep_tet (φ : A →ₐ[ℝ] B) (fac3 fac4 fac5 : A) (p : ℕ)
    (s : List (Option A)) (q : ℕ) :
    (qstep fac3 fac4 fac5 p s q).map (Option.map φ)
      = qstep (φ fac3) (φ fac4) (φ fac5) p (s.map (Option.map φ)) q := by
  unfold qstep
  rw [map_st]
  simp [map_og, map_rc]

lemma map_r1step_tet (φ : A →ₐ[ℝ] B) (z : A) (p : ℕ) (s : List (Option A)) (q : ℕ) :
    (r1step z p s q).map (Option.map φ) = r1step (φ z) p (s.map (Option.map φ)) q := by
  unfold r1step
  rw [map_st]
  simp [map_og, map_rc]

lemma map_rstep_tet (φ : A →ₐ[ℝ] B) (z : A) (p q : ℕ) (s : List (Option A)) (r : ℕ) :
    (rstep z p q s r).map (Option.map φ) = rstep (φ z) p q (s.map (Option.map φ)) r := by
  unfold rstep
  rw [map_st]
  simp [map_og, map_rc]

lemma map_nstep_tet (φ : A →ₐ[ℝ] B) (p q : ℕ) (s : List (Option A)) (r : ℕ) :
    (nstep p q s r).map (Option.map φ) = nstep p q (s.map (Option.map φ)) r := by
  unfold nstep
  rw [map_st]
  simp [map_og, map_rc]

/-- The tetrahedron sweep commutes with every ℝ-algebra homomorphism. -/
theorem map_results_tet (φ : A →ₐ[ℝ] B) (Am : Fin 3 → Fin 3 → ℝ) (bv : Fin 3 → ℝ)
    (n : ℕ) (pt : A × A × A) :
    _tabulate Am bv n (φ pt.1, φ pt.2.1, φ pt.2.2)
      = (_tabulate Am bv n pt).map (Option.map φ) := by
  rcases Nat.eq_zero_or_pos n with rfl | hn
  · rw [_tabulate, _tabulate, if_pos rfl, if_pos rfl, map_phase1_tet, map_B0_tet]
  · have hn0 : n ≠ 0 := by omega
    simp only [_tabulate]
    rw [if_neg hn0, if_neg hn0]
    rw [map_B0_tet, map_refY_tet, map_refZ_tet, map_Fac1, map_Fac2, map_Fac3,
      map_Fac4, map_Fac5]
    have h1 : st (phase1 n (φ (B0 pt))) (idx 1 0 0) (φ (Fac1 Am bv pt))
        = (st (phase1 n (B0 pt)) (idx 1 0 0) (Fac1 Am bv pt)).map (Option.map φ) := by
      rw [map_st, map_phase1_tet]
    rw [h1]
    rw [List.foldl_hom (·.map (Option.map φ)) (pstep (Fac1 Am bv pt) (Fac2 Am bv pt))
      (pstep (φ (Fac1 Am bv pt)) (φ (Fac2 Am bv pt))) (List.range' 1 (n - 1)) _
      (fun x y => (map_pstep_tet φ _ _ x y).symm)]
    rw [List.foldl_hom (·.map (Option.map φ)) (q1step (refY Am bv pt) (refZ Am bv pt))
      (q1step (φ (refY Am bv pt)) (φ (refZ Am bv pt))) (List.range n) _
      (fun x y => (map_q1step_tet φ _ _ x y).symm)]
    rw [List.foldl_hom (·.map (Option.map φ))
      (fun s p => (List.range' 1 (n - p - 1)).foldl
        (qstep (Fac3 Am bv pt) (Fac4 Am bv pt) (Fac5 Am bv pt) p) s)
      (fun s p => (List.range' 1 (n - p - 1)).foldl
        (qstep (φ (Fac3 Am bv pt)) (φ (Fac4 Am bv pt)) (φ (Fac5 Am bv pt)) p) s)
      (List.range (n - 1)) _
      (fun x y => List.foldl_hom (·.map (Option.map φ))
        (qstep (Fac3 Am bv pt) (Fac4 Am bv pt) (Fac5 Am bv pt) y)
        (qstep (φ (Fac3 Am bv pt)) (φ (Fac4 Am bv pt)) (φ (Fac5 Am bv pt)) y)
        (List.range' 1 (n - y - 1)) x (fun u v => (map_qstep_tet φ _ _ _ y u v).symm))]
    rw [List.foldl_hom (·.map (Option.map φ))
      (fun s p => (List.range (n - p)).foldl (r1step (refZ Am bv pt) p) s)
      (fun s p => (List.range (n - p)).foldl (r1step (φ (refZ Am bv pt)) p) s)
      (List.range n) _
      (fun x y => List.foldl_hom (·.map (Option.map φ)) (r1step (refZ Am bv pt) y)
        (r1step (φ (refZ Am bv pt)) y) (List.range (n - y)) x
        (fun u v => (map_r1step_tet φ _ y u v).symm))]
    rw [List.foldl_hom (·.map (Option.map φ))
      (fun s p => (List.range (n - p - 1)).foldl
        (fun s q => (List.range' 1 (n - p - q - 1)).foldl (rstep (refZ Am bv pt) p q) s) s)
      (fun s p => (List.range (n - p - 1)).foldl
        (fun s q => (List.range' 1 (n - p - q - 1)).foldl
          (rstep (φ (refZ Am bv pt)) p q) s) s)
      (List.range (n - 1)) _
      (fun x y => List.foldl_hom (·.map (Option.map φ))
        (fun s q => (List.range' 1 (n - y - q - 1)).foldl (rstep (refZ Am bv pt) y q) s)
        (fun s q => (List.range' 1 (n - y - q - 1)).foldl
          (rstep (φ (refZ Am bv pt)) y q) s)
        (List.range (n - y - 1)) x
        (fun u v => List.foldl_hom (·.map (Option.map φ)) (rstep (refZ Am bv pt) y v)
          (rstep (φ (refZ Am bv pt)) y v) (List.range' 1 (n - y - v - 1)) u
          (fun w r => (map_rstep_tet φ _ y v w r).symm)))]
    rw [List.foldl_hom (·.map (Option.map φ))
      (fun s p => (List.range (n - p + 1)).foldl
        (fun s q => (List.range (n - p - q + 1)).foldl (nstep p q) s) s)
      (fun s p => (List.range (n - p + 1)).foldl
        (fun s q => (List.range (n - p - q + 1)).foldl (nstep p q) s) s)
      (List.range (n + 1)) _
      (fun x y => List.foldl_hom (·.map (Option.map φ))
        (fun s q => (List.range (n - y - q + 1)).foldl (nstep y q) s)
        (fun s q => (List.range (n - y - q + 1)).foldl (nstep y q) s)
        (List.range (n - y + 1)) x
        (fun u v => List.foldl_hom (·.map (Option.map φ)) (nstep y v) (nstep y v)
          (List.range (n - y - v + 1)) u
          (fun w r => (map_nstep_tet φ y v w r).symm)))]

end TetrahedronExpansionSet

section JetLemmas

open TrivSqZeroExt MvPolynomial

/-- Dual numbers over ℝ carrying one partial derivative per variable in
`σ`: the model of ScientificPython's first-order `DerivVar` values that
`tabulate_jet` and the tetrahedron's `tabulate_derivatives` feed through
the recurrence. -/
abbrev Jet (σ : Type) := TrivSqZeroExt ℝ (σ → ℝ)

/-- `DerivVar(x[i], i)`: value `x i`, unit derivative in direction `i`. -/
noncomputable def dvar {σ : Type} [DecidableEq σ] (x : σ → ℝ) (i : σ) : Jet σ :=
  TrivSqZeroExt.inl (x i) + TrivSqZeroExt.inr (Pi.single i 1)

lemma fst_dvar {σ : Type} [DecidableEq σ] (x : σ → ℝ) (i : σ) :
    (dvar x i).fst = x i := by
  simp [dvar]

lemma aeval_eval_eq {σ : Type} (x : σ → ℝ) (P : MvPolynomial σ ℝ) :
    aeval x P = eval x P := by
  induction P using MvPolynomial.induction_on with
  | h_C a => simp
  | h_add p q hp hq => simp [hp, hq]
  | h_X p i hp => simp [hp]

lemma fst_aeval_dvar {σ : Type} [DecidableEq σ] (x : σ → ℝ) (P : MvPolynomial σ ℝ) :
    (aeval (dvar x) P).fst = eval x P := by
  induction P using MvPolynomial.induction_on with
  | h_C a => simp [algebraMap_eq_inl]
  | h_add p q hp hq => simp [hp, hq]
  | h_X p i hp => simp [hp, fst_dvar]

lemma snd_aeval_dvar {σ : Type} [DecidableEq σ] (x : σ → ℝ) (P : MvPolynomial σ ℝ)
    (k : σ) : (aeval (dvar x) P).snd k = eval x (pderiv k P) := by
  induction P using MvPolynomial.induction_on with
  | h_C a => simp [algebraMap_eq_inl]
  | h_add p q hp hq => simp [hp, hq]
  | h_X p i hp =>
    have hX : aeval (dvar x) (X i : MvPolynomial σ ℝ) = dvar x i := aeval_X _ i
    rw [map_mul, hX, snd_mul, op_smul_eq_smul]
    have hsnd : (dvar x i).snd = Pi.single i 1 := by simp [dvar]
    rw [hsnd, fst_dvar]
    have hp' : (aeval (dvar x) p).snd k = eval x (pderiv k p) := hp
    have hf : (aeval (dvar x) p).fst = eval x p := fst_aeval_dvar x p
    rw [pderiv_mul, pderiv_X]
    simp only [Pi.add_apply, Pi.smul_apply, smul_eq_mul, hp', Pi.single_apply,
      map_add, map_mul, eval_X]
    rw [hf]
    rcases eq_or_ne k i with rfl | hki
    · simp
      ring
    · simp [hki, Ne.symm hki]
      ring

end JetLemmas

lemma slot_map {A B : Type} (f : A → B) (s : List (Option A)) (i : ℕ) :
    slot (s.map (Option.map f)) i = Option.map f (slot s i) := by
  unfold slot
  rw [List.getD_eq_getElem?_getD, List.getD_eq_getElem?_getD, List.getElem?_map]
  cases s[i]? <;> simp

namespace TriangleExpansionSet

open TrivSqZeroExt MvPolynomial

/-- The dual-number point `tuple(DerivVar(pt[i], i, order)) ` built by
`tabulate_jet` (lines 216-219), at order 1. -/
noncomputable def dpt (pt : ℝ × ℝ) : Jet (Fin 2) × Jet (Fin 2) :=
  (dvar ![pt.1, pt.2] 0, dvar ![pt.1, pt.2] 1)

/-- Embedding of `TriangleExpansionSet.tabulate_jet(n, pts, order=1)`
(lines 215-226) before block extraction: `self.tabulate(n, dpts)` over the
dual-number points. -/
noncomputable def tabulate_jet (Am : Fin 2 → Fin 2 → ℝ) (bv : Fin 2 → ℝ) (n : ℕ)
    (pts : List (ℝ × ℝ)) : List (List (Option (Jet (Fin 2)))) :=
  tabulate Am bv n (pts.map dpt)

/-- Order-0 block of the jet result (`foo[0]`, lines 221-224): the value
component of each entry. -/
noncomputable def jet_block0 (Am : Fin 2 → Fin 2 → ℝ) (bv : Fin 2 → ℝ) (n : ℕ)
    (pts : List (ℝ × ℝ)) : List (List (Option ℝ)) :=
  (tabulate_jet Am bv n pts).map fun row => row.map (Option.map TrivSqZeroExt.fst)

/-- Order-1 block of the jet result (`foo[1]`): the gradient component of
each entry. -/
noncomputable def jet_block1 (Am : Fin 2 → Fin 2 → ℝ) (bv : Fin 2 → ℝ) (n : ℕ)
    (pts : List (ℝ × ℝ)) : List (List (Option (Fin 2 → ℝ))) :=
  (tabulate_jet Am bv n pts).map fun row => row.map (Option.map TrivSqZeroExt.snd)

/-- Embedding of `TriangleExpansionSet.tabulate_derivatives(n, pts)`
(lines 185-213): per basis function and point, a (value, gradient) pair.
The value comes from `self.tabulate(n, pts)`; the gradient from running
`_tabulate` once on the symbolic point `(X 0, X 1)`, differentiating each
entry (`sympy.diff`) and evaluating at the point.  On an empty point list
the source raises IndexError at `values.shape[1]`, modelled by `none`. -/
noncomputable def tabulate_derivatives (Am : Fin 2 → Fin 2 → ℝ) (bv : Fin 2 → ℝ)
    (n : ℕ) (pts : List (ℝ × ℝ)) :
    Option (List (List (Option ℝ × Option (Fin 2 → ℝ)))) :=
  if pts.isEmpty then none
  else some ((List.range (tridim n)).map fun i => pts.map fun pt =>
    (slot (_tabulate Am bv n pt) i,
     (slot (_tabulate (A := MvPolynomial (Fin 2) ℝ) Am bv n (X 0, X 1)) i).map
       fun P k => eval ![pt.1, pt.2] (pderiv k P)))

/-- Each dual-number results entry at a point is the symbolic results
entry pushed through evaluation at the corresponding dual point. -/
lemma tri_jet_entry (Am : Fin 2 → Fin 2 → ℝ) (bv : Fin 2 → ℝ) (n : ℕ)
    (pt : ℝ × ℝ) (i : ℕ) :
    slot (_tabulate Am bv n (dpt pt)) i
      = Option.map (aeval (dvar ![pt.1, pt.2]))
          (slot (_tabulate (A := MvPolynomial (Fin 2) ℝ) Am bv n (X 0, X 1)) i) := by
  rw [← slot_map]
  congr 1
  have h := map_results (aeval (dvar ![pt.1, pt.2]) : MvPolynomial (Fin 2) ℝ →ₐ[ℝ] Jet (Fin 2))
    Am bv n (X 0, X 1)
  calc _tabulate Am bv n (dpt pt)
      = _tabulate Am bv n
          (aeval (dvar ![pt.1, pt.2]) (X 0), aeval (dvar ![pt.1, pt.2]) (X 1)) := by
        rw [aeval_X, aeval_X]
        rfl
    _ = (_tabulate (A := MvPolynomial (Fin 2) ℝ) Am bv n (X 0, X 1)).map
          (Option.map (aeval (dvar ![pt.1, pt.2]))) := h

/-- Each plain results entry at a point is the symbolic results entry
evaluated at the point. -/
lemma tri_real_entry (Am : Fin 2 → Fin 2 → ℝ) (bv : Fin 2 → ℝ) (n : ℕ)
    (pt : ℝ × ℝ) (i : ℕ) :
    slot (_tabulate Am bv n pt) i
      = Option.map (eval ![pt.1, pt.2])
          (slot (_tabulate (A := MvPolynomial (Fin 2) ℝ) Am bv n (X 0, X 1)) i) := by
  rw [← slot_map]
  have hfun : Option.map (eval (![pt.1, pt.2] : Fin 2 → ℝ))
      = Option.map (aeval (![pt.1, pt.2] : Fin 2 → ℝ) : MvPolynomial (Fin 2) ℝ → ℝ) := by
    funext o
    cases o <;> simp [aeval_eval_eq]
  have h := map_results (aeval (![pt.1, pt.2] : Fin 2 → ℝ) : MvPolynomial (Fin 2) ℝ →ₐ[ℝ] ℝ)
    Am bv n (X 0, X 1)
  congr 1
  calc _tabulate Am bv n pt
      = _tabulate Am bv n
          (aeval (![pt.1, pt.2] : Fin 2 → ℝ) (X 0),
           aeval (![pt.1, pt.2] : Fin 2 → ℝ) (X 1)) := by
        rw [aeval_X, aeval_X]
        rfl
    _ = (_tabulate (A := MvPolynomial (Fin 2) ℝ) Am bv n (X 0, X 1)).map
          (Option.map (aeval (![pt.1, pt.2] : Fin 2 → ℝ))) := h
    _ = (_tabulate (A := MvPolynomial (Fin 2) ℝ) Am bv n (X 0, X 1)).map
          (Option.map (eval ![pt.1, pt.2])) := by rw [hfun]

end TriangleExpansionSet

namespace TetrahedronExpansionSet

open TrivSqZeroExt MvPolynomial

/-- The dual-number point `[DerivVar(pt[j], j) for j in range(len(pt))]`
built by the tetrahedron's `tabulate_derivatives` (line 338). -/
noncomputable def dpt3 (pt : ℝ × ℝ × ℝ) : Jet (Fin 3) × Jet (Fin 3) × Jet (Fin 3) :=
  (dvar ![pt.1, pt.2.1, pt.2.2] 0,
   dvar ![pt.1, pt.2.1, pt.2.2] 1,
   dvar ![pt.1, pt.2.1, pt.2.2] 2)

/-- Embedding of `TetrahedronExpansionSet.tabulate_derivatives(n, pts)`
(lines 336-340): `self.tabulate(n, dpts)` over first-order dual-number
points; each returned entry is itself a (value, gradient) pair. -/
noncomputable def tabulate_derivatives (Am : Fin 3 → Fin 3 → ℝ) (bv : Fin 3 → ℝ)
    (n : ℕ) (pts : List (ℝ × ℝ × ℝ)) : List (List (Option (Jet (Fin 3)))) :=
  tabulate Am bv n (pts.map dpt3)

lemma tet_jet_entry (Am : Fin 3 → Fin 3 → ℝ) (bv : Fin 3 → ℝ) (n : ℕ)
    (pt : ℝ × ℝ × ℝ) (i : ℕ) :
    slot (_tabulate Am bv n (dpt3 pt)) i
      = Option.map (aeval (dvar ![pt.1, pt.2.1, pt.2.2]))
          (slot (_tabulate (A := MvPolynomial (Fin 3) ℝ) Am bv n (X 0, X 1, X 2)) i) := by
  rw [← slot_map]
  congr 1
  have h := map_results_tet
    (aeval (dvar ![pt.1, pt.2.1, pt.2.2]) : MvPolynomial (Fin 3) ℝ →ₐ[ℝ] Jet (Fin 3))
    Am bv n (X 0, X 1, X 2)
  calc _tabulate Am bv n (dpt3 pt)
      = _tabulate Am bv n
          (aeval (dvar ![pt.1, pt.2.1, pt.2.2]) (X 0),
           aeval (dvar ![pt.1, pt.2.1, pt.2.2]) (X 1),
           aeval (dvar ![pt.1, pt.2.1, pt.2.2]) (X 2)) := by
        rw [aeval_X, aeval_X, aeval_X]
        rfl
    _ = (_tabulate (A := MvPolynomial (Fin 3) ℝ) Am bv n (X 0, X 1, X 2)).map
          (Option.map (aeval (dvar ![pt.1, pt.2.1, pt.2.2]))) := h

lemma tet_real_entry (Am : Fin 3 → Fin 3 → ℝ) (bv : Fin 3 → ℝ) (n : ℕ)
    (pt : ℝ × ℝ × ℝ) (i : ℕ) :
    slot (_tabulate Am bv n pt) i
      = Option.map (eval ![pt.1, pt.2.1, pt.2.2])
          (slot (_tabulate (A := MvPolynomial (Fin 3) ℝ) Am bv n (X 0, X 1, X 2)) i) := by
  rw [← slot_map]
  have hfun : Option.map (eval (![pt.1, pt.2.1, pt.2.2] : Fin 3 → ℝ))
      = Option.map
          (aeval (![pt.1, pt.2.1, pt.2.2] : Fin 3 → ℝ) : MvPolynomial (Fin 3) ℝ → ℝ) := by
    funext o
    cases o <;> simp [aeval_eval_eq]
  have h := map_results_tet
    (aeval (![pt.1, pt.2.1, pt.2.2] : Fin 3 → ℝ) : MvPolynomial (Fin 3) ℝ →ₐ[ℝ] ℝ)
    Am bv n (X 0, X 1, X 2)
  congr 1
  calc _tabulate Am bv n pt
      = _tabulate Am bv n
          (aeval (![pt.1, pt.2.1, pt.2.2] : Fin 3 → ℝ) (X 0),
           aeval (![pt.1, pt.2.1, pt.2.2] : Fin 3 → ℝ) (X 1),
           aeval (![pt.1, pt.2.1, pt.2.2] : Fin 3 → ℝ) (X 2)) := by
        rw [aeval_X, aeval_X, aeval_X]
        rfl
    _ = (_tabulate (A := MvPolynomial (Fin 3) ℝ) Am bv n (X 0, X 1, X 2)).map
          (Option.map (aeval (![pt.1, pt.2.1, pt.2.2] : Fin 3 → ℝ))) := h
    _ = (_tabulate (A := MvPolynomial (Fin 3) ℝ) Am bv n (X 0, X 1, X 2)).map
          (Option.map (eval ![pt.1, pt.2.1, pt.2.2])) := by rw [hfun]

end TetrahedronExpansionSet

lemma isEmpty_map {α β : Type} (f : α → β) (l : List α) : (l.map f).isEmpty = l.isEmpty := by
  cases l <;> rfl

/-- C7 counterexample: `LineExpansionSet.tabulate_derivatives` on an empty
point list does not return an empty result — it fails (IndexError at
`pts[0]`, line 93), here with a Jacobi callback that returns an empty
batch without complaint. -/
theorem C7_counterexample_line_derivatives_empty :
    LineExpansionSet.tabulate_derivatives (fun _ _ => some []) 1 0 0 [] = none :=
  LineExpansionSet.line_tabulate_derivatives_empty _ 1 0 0

/-- C7 amended: `tabulate(n, [])` returns an empty structure without error
for every shape and degree, without invoking the recurrence (the line
result is the same for every Jacobi callback); but the line's
`tabulate_derivatives` on an empty point list raises an error (for every
Jacobi behavior) rather than returning an empty result. -/
theorem C7_empty_point_input (n : ℕ) :
    (∀ (jac : ℕ → List ℝ → List (List ℝ)) (a b : ℝ),
      LineExpansionSet.tabulate jac a b n [] = []) ∧
    (∀ (Am : Fin 2 → Fin 2 → ℝ) (bv : Fin 2 → ℝ),
      TriangleExpansionSet.tabulate (A := ℝ) Am bv n [] = []) ∧
    (∀ (Am : Fin 3 → Fin 3 → ℝ) (bv : Fin 3 → ℝ),
      TetrahedronExpansionSet.tabulate (A := ℝ) Am bv n [] = []) ∧
    (∀ (jacd : ℕ → List ℝ → Option (List (List ℝ))) (a b : ℝ),
      LineExpansionSet.tabulate_derivatives jacd a b n [] = none) :=
  ⟨fun jac a b => LineExpansionSet.line_tabulate_empty jac a b n,
   fun Am bv => TriangleExpansionSet.tri_tabulate_empty Am bv n,
   fun Am bv => TetrahedronExpansionSet.tet_tabulate_empty Am bv n,
   fun jacd a b => LineExpansionSet.line_tabulate_derivatives_empty jacd a b n⟩

/-- Witness for C7 at degree 3 with concrete Jacobi callbacks. -/
theorem C7_empty_point_input_witness :
    LineExpansionSet.tabulate (fun _ _ => [[1]]) 2 1 3 [] = [] ∧
    TriangleExpansionSet.tabulate (A := ℝ) ![![1, 0], ![0, 1]] ![0, 0] 3 [] = [] ∧
    TetrahedronExpansionSet.tabulate (A := ℝ) ![![1, 0, 0], ![0, 1, 0], ![0, 0, 1]]
      ![0, 0, 0] 3 [] = [] ∧
    LineExpansionSet.tabulate_derivatives (fun _ _ => some [[1]]) 2 1 3 [] = none :=
  ⟨(C7_empty_point_input 3).1 _ 2 1, (C7_empty_point_input 3).2.1 _ _,
   (C7_empty_point_input 3).2.2.1 _ _, (C7_empty_point_input 3).2.2.2 _ 2 1⟩

/-- C9 (code bug): `TetrahedronExpansionSet._tabulate` contains a stray
debug statement `print 'dasdas'` (expansions.py line 256), so every
`tabulate` call with a non-empty point list writes to stdout, contradicting
the claimed purity; with an empty point list `_tabulate` is never entered
and nothing is printed. -/
theorem C9_tetrahedron_tabulate_prints :
    TetrahedronExpansionSet.tabulate_output 0 [((0 : ℝ), (0 : ℝ), (0 : ℝ))] = ["dasdas"] ∧
    TetrahedronExpansionSet.tabulate_output (α := ℝ × ℝ × ℝ) 0 [] = [] ∧
    (["dasdas"] : List String) ≠ [] := by
  refine ⟨rfl, rfl, by simp⟩

/-- C10: the recurrence sweeps of both `_tabulate` methods assign every
slot of the `results` list (created as `dim * [None]`) before returning:
the list has the closed-form length and no entry is `None`. -/
theorem C10_no_slot_left_unassigned :
    (∀ (Am : Fin 2 → Fin 2 → ℝ) (bv : Fin 2 → ℝ) (n : ℕ) (pt : ℝ × ℝ),
      (TriangleExpansionSet._tabulate Am bv n pt).length = tridim n ∧
      ∀ i, i < (TriangleExpansionSet._tabulate Am bv n pt).length →
        slot (TriangleExpansionSet._tabulate Am bv n pt) i ≠ none) ∧
    (∀ (Am : Fin 3 → Fin 3 → ℝ) (bv : Fin 3 → ℝ) (n : ℕ) (pt : ℝ × ℝ × ℝ),
      (TetrahedronExpansionSet._tabulate Am bv n pt).length = tetdim n ∧
      ∀ i, i < (TetrahedronExpansionSet._tabulate Am bv n pt).length →
        slot (TetrahedronExpansionSet._tabulate Am bv n pt) i ≠ none) := by
  constructor
  · intro Am bv n pt
    refine ⟨TriangleExpansionSet.tri_results_length Am bv n pt, fun i hi => ?_⟩
    rw [TriangleExpansionSet.tri_results_length] at hi
    have h := TriangleExpansionSet.tri_results_isSome Am bv n pt hi
    exact Option.isSome_iff_ne_none.mp h
  · intro Am bv n pt
    refine ⟨TetrahedronExpansionSet.tet_results_length Am bv n pt, fun i hi => ?_⟩
    rw [TetrahedronExpansionSet.tet_results_length] at hi
    have h := TetrahedronExpansionSet.tet_results_isSome Am bv n pt hi
    exact Option.isSome_iff_ne_none.mp h

/-- Witness for C10 at a concrete degree, point and slot. -/
theorem C10_no_slot_left_unassigned_witness :
    slot (TriangleExpansionSet._tabulate (A := ℝ) ![![1, 0], ![0, 1]] ![0, 0] 2
      ((0.3 : ℝ), (0.7 : ℝ))) 5 ≠ none := by
  have hlen := (C10_no_slot_left_unassigned.1 ![![1, 0], ![0, 1]] ![0, 0] 2
    ((0.3 : ℝ), (0.7 : ℝ))).1
  exact (C10_no_slot_left_unassigned.1 ![![1, 0], ![0, 1]] ![0, 0] 2
    ((0.3 : ℝ), (0.7 : ℝ))).2 5 (by rw [hlen]; norm_num [tridim])

/-- C1: for every supported cell, every degree `n ≥ 0` and every non-empty
point list, the value block of `tabulate` has exactly
`polynomial_dimension(cell, n)` rows, which also equals
`get_num_members(n)` (numpy's empty-tuple indexing `arr[()]` returns the
array itself, so the `[()]` block of the returned array is the array). -/
theorem C1_tabulate_dimension_match (n : ℕ) :
    (∀ (jac : ℕ → List ℝ → List (List ℝ)) (a b : ℝ) (pts : List ℝ), pts ≠ [] →
      ((LineExpansionSet.tabulate jac a b n pts).length : ℤ)
          = polynomial_dimension Shape.line (n : ℤ) ∧
      polynomial_dimension Shape.line (n : ℤ) = line_get_num_members (n : ℤ)) ∧
    (∀ (Am : Fin 2 → Fin 2 → ℝ) (bv : Fin 2 → ℝ) (pts : List (ℝ × ℝ)), pts ≠ [] →
      ((TriangleExpansionSet.tabulate Am bv n pts).length : ℤ)
          = polynomial_dimension Shape.triangle (n : ℤ) ∧
      polynomial_dimension Shape.triangle (n : ℤ) = tri_get_num_members (n : ℤ)) ∧
    (∀ (Am : Fin 3 → Fin 3 → ℝ) (bv : Fin 3 → ℝ) (pts : List (ℝ × ℝ × ℝ)), pts ≠ [] →
      ((TetrahedronExpansionSet.tabulate Am bv n pts).length : ℤ)
          = polynomial_dimension Shape.tetrahedron (n : ℤ) ∧
      polynomial_dimension Shape.tetrahedron (n : ℤ) = tet_get_num_members (n : ℤ)) := by
  refine ⟨fun jac a b pts h => ?_, fun Am bv pts h => ?_, fun Am bv pts h => ?_⟩
  · rw [LineExpansionSet.line_tabulate_length jac a b n pts h,
      polynomial_dimension_line_nat, line_get_num_members]
    constructor <;> push_cast <;> ring
  · rw [TriangleExpansionSet.tri_tabulate_length Am bv n pts h,
      polynomial_dimension_tri_nat, tri_get_num_members_nat]
    exact ⟨rfl, rfl⟩
  · rw [TetrahedronExpansionSet.tet_tabulate_length Am bv n pts h,
      polynomial_dimension_tet_nat, tet_get_num_members_nat]
    exact ⟨rfl, rfl⟩

/-- Witness for C1 at degree 2 on concrete one-point lists. -/
theorem C1_tabulate_dimension_match_witness :
    ((LineExpansionSet.tabulate (fun _ _ => []) 1 0 2 [(0.5 : ℝ)]).length : ℤ)
        = polynomial_dimension Shape.line ((2 : ℕ) : ℤ) ∧
    ((TriangleExpansionSet.tabulate ![![1, 0], ![0, 1]] ![0, 0] 2
        [((0.3 : ℝ), (0.7 : ℝ))]).length : ℤ)
        = polynomial_dimension Shape.triangle ((2 : ℕ) : ℤ) ∧
    ((TetrahedronExpansionSet.tabulate ![![1, 0, 0], ![0, 1, 0], ![0, 0, 1]] ![0, 0, 0] 2
        [((0.1 : ℝ), (0.2 : ℝ), (0.3 : ℝ))]).length : ℤ)
        = polynomial_dimension Shape.tetrahedron ((2 : ℕ) : ℤ) :=
  ⟨(((C1_tabulate_dimension_match 2).1 (fun _ _ => []) 1 0 [(0.5 : ℝ)]) (by simp)).1,
   (((C1_tabulate_dimension_match 2).2.1 ![![1, 0], ![0, 1]] ![0, 0]
      [((0.3 : ℝ), (0.7 : ℝ))]) (by simp)).1,
   (((C1_tabulate_dimension_match 2).2.2 ![![1, 0, 0], ![0, 1, 0], ![0, 0, 1]] ![0, 0, 0]
      [((0.1 : ℝ), (0.2 : ℝ), (0.3 : ℝ))]) (by simp)).1⟩

lemma rc_real (r : ℝ) : (rc r : ℝ) = r := rfl

/-- C2: the triangle's linear position of basis multi-index `(p, q)` is
`idx(p,q) = (p+q)(p+q+1)/2 + q`, a bijection from the degree-`n` index
simplex onto `{0, ..., (n+1)(n+2)/2 - 1}`; at `n = 2` the six positions
are exactly as the spec lists them; and `tabulate` puts basis function
`(p, q)` in row `idx(p, q)` (shown here for `n ≥ 1` with the row holding
the normalized recurrence value at every point). -/
theorem C2_triangle_basis_ordering :
    (TriangleExpansionSet.idx 0 0 = 0 ∧ TriangleExpansionSet.idx 1 0 = 1 ∧
     TriangleExpansionSet.idx 0 1 = 2 ∧ TriangleExpansionSet.idx 2 0 = 3 ∧
     TriangleExpansionSet.idx 1 1 = 4 ∧ TriangleExpansionSet.idx 0 2 = 5) ∧
    (∀ n : ℕ, Set.BijOn (fun pq : ℕ × ℕ => TriangleExpansionSet.idx pq.1 pq.2)
      {pq : ℕ × ℕ | pq.1 + pq.2 ≤ n} (Set.Iio (tridim n))) ∧
    (∀ (Am : Fin 2 → Fin 2 → ℝ) (bv : Fin 2 → ℝ) (n p q : ℕ) (pts : List (ℝ × ℝ)),
      1 ≤ n → p + q ≤ n → pts ≠ [] →
      (TriangleExpansionSet.tabulate Am bv n pts).getD (TriangleExpansionSet.idx p q) []
        = pts.map fun pt => some (TriangleExpansionSet.nval
            (TriangleExpansionSet.refY Am bv pt) (TriangleExpansionSet.F1 Am bv pt)
            (TriangleExpansionSet.F3 Am bv pt) (TriangleExpansionSet.B0 pt) p q)) := by
  refine ⟨TriangleExpansionSet.idx_values_n2, fun n => ⟨?_, ?_, ?_⟩, ?_⟩
  · intro pq h
    exact Set.mem_Iio.mpr (TriangleExpansionSet.idx_lt h)
  · intro pq _ pq' _ he
    obtain ⟨h1, h2⟩ := TriangleExpansionSet.idx_inj he
    exact Prod.ext h1 h2
  · intro i hi
    obtain ⟨p, q, hpq, rfl⟩ := TriangleExpansionSet.idx_surj (Set.mem_Iio.mp hi)
    exact ⟨(p, q), hpq, rfl⟩
  · intro Am bv n p q pts hn hpq hne
    rw [TriangleExpansionSet.tri_tabulate_row Am bv n pts hne
      (TriangleExpansionSet.idx_lt hpq)]
    apply List.map_congr_left
    intro pt _
    rw [TriangleExpansionSet.tri_results_spec Am bv hn pt hpq]

/-- Witness for C2's row-ordering part at `n = 2`, `(p, q) = (1, 1)`, one
concrete point. -/
theorem C2_triangle_basis_ordering_witness :
    (TriangleExpansionSet.tabulate ![![1, 0], ![0, 1]] ![0, 0] 2
        [((0.3 : ℝ), (0.7 : ℝ))]).getD (TriangleExpansionSet.idx 1 1) []
      = [some (TriangleExpansionSet.nval
          (TriangleExpansionSet.refY ![![1, 0], ![0, 1]] ![0, 0] ((0.3 : ℝ), (0.7 : ℝ)))
          (TriangleExpansionSet.F1 ![![1, 0], ![0, 1]] ![0, 0] ((0.3 : ℝ), (0.7 : ℝ)))
          (TriangleExpansionSet.F3 ![![1, 0], ![0, 1]] ![0, 0] ((0.3 : ℝ), (0.7 : ℝ)))
          (TriangleExpansionSet.B0 ((0.3 : ℝ), (0.7 : ℝ))) 1 1)] :=
  C2_triangle_basis_ordering.2.2 ![![1, 0], ![0, 1]] ![0, 0] 2 1 1
    [((0.3 : ℝ), (0.7 : ℝ))] (by norm_num) (by norm_num) (by simp)

/-- C4 (code bug): at degree 0 the triangle `tabulate` skips the
normalization: the `if n == 0: return results` at lines 149-150 exits
before the `sqrt((p+0.5)*(p+q+1.0))` loop, so the single basis value is
1.0, while the claimed normalized value of the `(0,0)` entry is
`sqrt(0.5) * 1 ≠ 1`.  (For `n ≥ 1` the normalization does hold — see the
row theorem of C2.) -/
theorem C4_degree0_normalization_missing :
    (TriangleExpansionSet.tabulate ![![1, 0], ![0, 1]] ![0, 0] 0
        [((0.3 : ℝ), (0.7 : ℝ))]).getD 0 [] = [some (1 : ℝ)] ∧
    TriangleExpansionSet.nval
        (TriangleExpansionSet.refY ![![1, 0], ![0, 1]] ![0, 0] ((0.3 : ℝ), (0.7 : ℝ)))
        (TriangleExpansionSet.F1 ![![1, 0], ![0, 1]] ![0, 0] ((0.3 : ℝ), (0.7 : ℝ)))
        (TriangleExpansionSet.F3 ![![1, 0], ![0, 1]] ![0, 0] ((0.3 : ℝ), (0.7 : ℝ)))
        (TriangleExpansionSet.B0 ((0.3 : ℝ), (0.7 : ℝ))) 0 0 = Real.sqrt (1 / 2) ∧
    Real.sqrt (1 / 2) ≠ (1 : ℝ) := by
  refine ⟨?_, ?_, ?_⟩
  · rw [TriangleExpansionSet.tri_tabulate_row ![![1, 0], ![0, 1]] ![0, 0] 0
      [((0.3 : ℝ), (0.7 : ℝ))] (by simp) (show 0 < tridim 0 by norm_num [tridim])]
    rw [List.map_cons, List.map_nil, TriangleExpansionSet.tri_results_zero]
    have hB : TriangleExpansionSet.B0 (A := ℝ) ((0.3 : ℝ), (0.7 : ℝ)) = 1 := by
      rw [TriangleExpansionSet.B0]
      norm_num
    rw [show slot [some (TriangleExpansionSet.B0 (A := ℝ) ((0.3 : ℝ), (0.7 : ℝ)))] 0
        = some (TriangleExpansionSet.B0 (A := ℝ) ((0.3 : ℝ), (0.7 : ℝ))) from rfl, hB]
  · rw [TriangleExpansionSet.nval]
    have h1 : TriangleExpansionSet.psi
        (TriangleExpansionSet.refY ![![1, 0], ![0, 1]] ![0, 0] ((0.3 : ℝ), (0.7 : ℝ)))
        (TriangleExpansionSet.F1 ![![1, 0], ![0, 1]] ![0, 0] ((0.3 : ℝ), (0.7 : ℝ)))
        (TriangleExpansionSet.F3 ![![1, 0], ![0, 1]] ![0, 0] ((0.3 : ℝ), (0.7 : ℝ)))
        (TriangleExpansionSet.B0 ((0.3 : ℝ), (0.7 : ℝ))) 0 0
        = TriangleExpansionSet.B0 (A := ℝ) ((0.3 : ℝ), (0.7 : ℝ)) := rfl
    rw [h1]
    have hB : TriangleExpansionSet.B0 (A := ℝ) ((0.3 : ℝ), (0.7 : ℝ)) = 1 := by
      rw [TriangleExpansionSet.B0]
      norm_num
    rw [hB, rc_real]
    norm_num
  · intro h
    have h2 := Real.sq_sqrt (show (0 : ℝ) ≤ 1 / 2 by norm_num)
    rw [h] at h2
    norm_num at h2

open TrivSqZeroExt MvPolynomial in
/-- C6: `tabulate_derivatives` returns per basis function and per point a
(value, gradient) pair whose value component equals the corresponding
entry of `tabulate` — for the triangle because the values are literally
taken from `self.tabulate(n, pts)`, for the tetrahedron because the value
component of a first-order dual number pushed through the recurrence is
the plain evaluation. -/
theorem C6_derivative_value_components (n : ℕ) :
    (∀ (Am : Fin 2 → Fin 2 → ℝ) (bv : Fin 2 → ℝ) (pts : List (ℝ × ℝ)), pts ≠ [] →
      (TriangleExpansionSet.tabulate_derivatives Am bv n pts).map
          (fun d => d.map fun row => row.map Prod.fst)
        = some (TriangleExpansionSet.tabulate Am bv n pts)) ∧
    (∀ (Am : Fin 3 → Fin 3 → ℝ) (bv : Fin 3 → ℝ) (pts : List (ℝ × ℝ × ℝ)),
      (TetrahedronExpansionSet.tabulate_derivatives Am bv n pts).map
          (fun row => row.map (Option.map TrivSqZeroExt.fst))
        = TetrahedronExpansionSet.tabulate Am bv n pts) := by
  constructor
  · intro Am bv pts h
    rw [TriangleExpansionSet.tabulate_derivatives, if_neg (by simpa using h),
      Option.map_some']
    congr 1
    rw [TriangleExpansionSet.tabulate, if_neg (by simpa using h)]
    simp only [List.map_map]
    apply List.map_congr_left
    intro i _
    simp only [Function.comp_apply]
    simp only [List.map_map]
    rfl
  · intro Am bv pts
    rw [TetrahedronExpansionSet.tabulate_derivatives]
    unfold TetrahedronExpansionSet.tabulate
    rw [isEmpty_map]
    by_cases h : pts.isEmpty
    · rw [if_pos h, if_pos h]
      rfl
    · rw [if_neg h, if_neg h]
      simp only [List.map_map]
      apply List.map_congr_left
      intro i _
      simp only [Function.comp_apply]
      simp only [List.map_map]
      apply List.map_congr_left
      intro pt _
      show Option.map TrivSqZeroExt.fst
          (slot (TetrahedronExpansionSet._tabulate Am bv n
            (TetrahedronExpansionSet.dpt3 pt)) i)
        = slot (TetrahedronExpansionSet._tabulate Am bv n pt) i
      rw [TetrahedronExpansionSet.tet_jet_entry, TetrahedronExpansionSet.tet_real_entry,
        Option.map_map]
      congr 1
      funext P
      exact fst_aeval_dvar _ P

/-- Witness for C6's triangle part at degree 1 on a one-point list. -/
theorem C6_derivative_value_components_witness :
    (TriangleExpansionSet.tabulate_derivatives ![![1, 0], ![0, 1]] ![0, 0] 1
        [((0.3 : ℝ), (0.7 : ℝ))]).map (fun d => d.map fun row => row.map Prod.fst)
      = some (TriangleExpansionSet.tabulate ![![1, 0], ![0, 1]] ![0, 0] 1
          [((0.3 : ℝ), (0.7 : ℝ))]) :=
  (C6_derivative_value_components 1).1 ![![1, 0], ![0, 1]] ![0, 0]
    [((0.3 : ℝ), (0.7 : ℝ))] (by simp)

open TrivSqZeroExt MvPolynomial in
/-- C5: the order-0 block of `tabulate_jet(n, pts, 1)` equals the values
returned by `tabulate(n, pts)`, and the order-1 block equals the gradient
component of `tabulate_derivatives(n, pts)`: the dual-number path and the
symbolic-differentiation path compute the same function. -/
theorem C5_jet_blocks_match_derivatives (Am : Fin 2 → Fin 2 → ℝ) (bv : Fin 2 → ℝ)
    (n : ℕ) (pts : List (ℝ × ℝ)) (h : pts ≠ []) :
    TriangleExpansionSet.jet_block0 Am bv n pts
        = TriangleExpansionSet.tabulate Am bv n pts ∧
    (TriangleExpansionSet.tabulate_derivatives Am bv n pts).map
        (fun d => d.map fun row => row.map fun e => e.2)
      = some (TriangleExpansionSet.jet_block1 Am bv n pts) := by
  constructor
  · unfold TriangleExpansionSet.jet_block0 TriangleExpansionSet.tabulate_jet
    unfold TriangleExpansionSet.tabulate
    rw [isEmpty_map, if_neg (by simpa using h), if_neg (by simpa using h)]
    simp only [List.map_map]
    apply List.map_congr_left
    intro i _
    simp only [Function.comp_apply]
    simp only [List.map_map]
    apply List.map_congr_left
    intro pt _
    show Option.map TrivSqZeroExt.fst
        (slot (TriangleExpansionSet._tabulate Am bv n (TriangleExpansionSet.dpt pt)) i)
      = slot (TriangleExpansionSet._tabulate Am bv n pt) i
    rw [TriangleExpansionSet.tri_jet_entry, TriangleExpansionSet.tri_real_entry,
      Option.map_map]
    congr 1
    funext P
    exact fst_aeval_dvar _ P
  · rw [TriangleExpansionSet.tabulate_derivatives, if_neg (by simpa using h),
      Option.map_some']
    congr 1
    unfold TriangleExpansionSet.jet_block1 TriangleExpansionSet.tabulate_jet
    unfold TriangleExpansionSet.tabulate
    rw [isEmpty_map, if_neg (by simpa using h)]
    simp only [List.map_map]
    apply List.map_congr_left
    intro i _
    simp only [Function.comp_apply]
    simp only [List.map_map]
    apply List.map_congr_left
    intro pt _
    show (slot (TriangleExpansionSet._tabulate (A := MvPolynomial (Fin 2) ℝ) Am bv n
          (X 0, X 1)) i).map (fun P k => eval ![pt.1, pt.2] (pderiv k P))
      = Option.map TrivSqZeroExt.snd
          (slot (TriangleExpansionSet._tabulate Am bv n (TriangleExpansionSet.dpt pt)) i)
    rw [TriangleExpansionSet.tri_jet_entry, Option.map_map]
    congr 1
    funext P
    funext k
    exact (snd_aeval_dvar _ P k).symm

/-- Witness for C5 at degree 1 on a one-point list. -/
theorem C5_jet_blocks_match_derivatives_witness :
    TriangleExpansionSet.jet_block0 ![![1, 0], ![0, 1]] ![0, 0] 1 [((0.3 : ℝ), (0.7 : ℝ))]
        = TriangleExpansionSet.tabulate ![![1, 0], ![0, 1]] ![0, 0] 1
            [((0.3 : ℝ), (0.7 : ℝ))] ∧
    (TriangleExpansionSet.tabulate_derivatives ![![1, 0], ![0, 1]] ![0, 0] 1
        [((0.3 : ℝ), (0.7 : ℝ))]).map (fun d => d.map fun row => row.map fun e => e.2)
      = some (TriangleExpansionSet.jet_block1 ![![1, 0], ![0, 1]] ![0, 0] 1
          [((0.3 : ℝ), (0.7 : ℝ))]) :=
  C5_jet_blocks_match_derivatives ![![1, 0], ![0, 1]] ![0, 0] 1
    [((0.3 : ℝ), (0.7 : ℝ))] (by simp)

end FIATSpec
